import Mathlib

/-!
# Request inspection service (samples/reqhandle/main.go)

A shallow embedding of the request handler of `samples/reqhandle/main.go`:
the client-chain resolver (`setIPAddresse`, `extractIPAddress`, `splitXFF`),
the directive validator (`newValidator`, `validateQueryString`,
`QueryString.setValue`), the directive evaluator (`evaluateQueryString`) and
the accessors of the resource registry (`ResourceUsage.getTarget` and its
siblings).

Go strings are modelled as Lean `String`s (sequences of Unicode scalar values,
that is, well-formed UTF-8 text).  A Go `map[string][]string` is modelled as an
association list; the order of the list is the order in which `range` visits
the keys, and the keys of a real map are pairwise distinct.
-/

namespace ReqHandle

/-! ## The part of Go's `strings` package used by the program -/

namespace strings

/-- Go `strings.Join(elems, sep)`: the elements concatenated with `sep` between
neighbours; the empty string for no element. -/
def Join : List String → String → String
  | [], _ => ""
  | [e], _ => e
  | e :: e2 :: es, sep => e ++ sep ++ Join (e2 :: es) sep

/-- Cut a character sequence at every occurrence of `sep`.  The result always
has one more piece than there are separators, so the empty sequence yields one
empty piece. -/
def splitChars (sep : Char) : List Char → List (List Char)
  | [] => [[]]
  | c :: cs =>
    if c = sep then [] :: splitChars sep cs
    else
      match splitChars sep cs with
      | [] => [[c]]
      | seg :: segs => (c :: seg) :: segs

/-- Go `strings.Split(s, sep)` for a separator of one character, which is what
every call in the program passes (`","` and `":"`).  As in Go, a string without
the separator, the empty string included, yields a slice of length one. -/
def Split (s : String) (sep : Char) : List String :=
  (splitChars sep s.data).map String.mk

/-- Go `strings.HasPrefix(s, p)`. -/
def HasPrefix (s p : String) : Bool :=
  p.data.isPrefixOf s.data

/-- Go `unicode.IsSpace`: the white space characters of Unicode. -/
def isSpace (c : Char) : Bool :=
  let n := c.toNat
  (9 ≤ n && n ≤ 13) || n = 32 || n = 0x85 || n = 0xA0 || n = 0x1680 ||
  (0x2000 ≤ n && n ≤ 0x200a) || n = 0x2028 || n = 0x2029 || n = 0x202f ||
  n = 0x205f || n = 0x3000

/-- Remove from both ends of a character sequence the characters that
satisfy `p`. -/
def trimChars (p : Char → Bool) (cs : List Char) : List Char :=
  ((cs.dropWhile p).reverse.dropWhile p).reverse

/-- Go `strings.TrimSpace(s)`: leading and trailing white space removed. -/
def TrimSpace (s : String) : String :=
  String.mk (trimChars isSpace s.data)

/-- Go `strings.Trim(s, cutset)`: leading and trailing characters that occur in
`cutset` removed. -/
def Trim (s cutset : String) : String :=
  String.mk (trimChars (fun c => cutset.data.contains c) s.data)

end strings

/-! ## Regular expressions (Go `regexp`, RE2 syntax without flags) -/

/-- Abstract syntax of the regular expressions the program compiles. -/
inductive Regexp where
  /-- Matches the empty string. -/
  | empty : Regexp
  /-- The assertion `^`: at the beginning of the text. -/
  | beginText : Regexp
  /-- The assertion `$`: at the end of the text (no flag `m`, so never before a
  final newline). -/
  | endText : Regexp
  /-- The dot: any character other than newline (no flag `s`). -/
  | anyCharNotNL : Regexp
  /-- One literal character. -/
  | lit (c : Char) : Regexp
  /-- A character class, a union of inclusive ranges. -/
  | cls (ranges : List (Char × Char)) : Regexp
  /-- A group, capturing `( )` or not `(?: )`. -/
  | group (r : Regexp) : Regexp
  /-- Concatenation. -/
  | cat (a b : Regexp) : Regexp
  /-- Alternation `a|b`. -/
  | alt (a b : Regexp) : Regexp
  /-- Repetition: at least `min` times and, when `max` is given, at most `max`
  times. -/
  | rep (r : Regexp) (min : Nat) (max : Option Nat) : Regexp

/-- A position of the matcher: the number of characters before it and the
characters after it. -/
abbrev Cursor := Nat × List Char

namespace Regexp

/-- A literal string, one character after the other. -/
def lits (s : String) : Regexp :=
  s.data.foldr (fun c r => cat (lit c) r) empty

/-- Concatenation of a list of expressions. -/
def seq : List Regexp → Regexp
  | [] => empty
  | [r] => r
  | r :: rs => cat r (seq rs)

/-- Alternation of a non-empty list of expressions. -/
def alts : Regexp → List Regexp → Regexp
  | r, [] => r
  | r, r2 :: rs => alt r (alts r2 rs)

/-- Does the class given by `ranges` contain `c`? -/
def inClass (ranges : List (Char × Char)) (c : Char) : Bool :=
  ranges.any (fun r => r.1.toNat ≤ c.toNat && c.toNat ≤ r.2.toNat)

/-- All positions reached from `c` by at most `extra` rounds of `f`. -/
def upTo (f : Cursor → List Cursor) : Nat → Cursor → List Cursor
  | 0, c => [c]
  | extra + 1, c => c :: (f c).flatMap (upTo f extra)

/-- All positions reached from `c` by between `lo` and `lo + extra` rounds
of `f`. -/
def iterate (f : Cursor → List Cursor) : Nat → Nat → Cursor → List Cursor
  | 0, extra, c => upTo f extra c
  | lo + 1, extra, c => (f c).flatMap (iterate f lo extra)

/-- All positions at which a match of the expression that starts at the
given position can end.  An unbounded repetition is cut after as many optional
rounds as there are characters left: a round that consumes nothing reaches no
new position. -/
def step : Regexp → Cursor → List Cursor
  | empty, c => [c]
  | beginText, c => if c.1 = 0 then [c] else []
  | endText, c =>
    match c.2 with
    | [] => [c]
    | _ :: _ => []
  | anyCharNotNL, c =>
    match c.2 with
    | [] => []
    | x :: xs => if x = Char.ofNat 10 then [] else [(c.1 + 1, xs)]
  | lit a, c =>
    match c.2 with
    | [] => []
    | x :: xs => if x = a then [(c.1 + 1, xs)] else []
  | cls ranges, c =>
    match c.2 with
    | [] => []
    | x :: xs => if inClass ranges x then [(c.1 + 1, xs)] else []
  | group r, c => step r c
  | cat a b, c => (step a c).flatMap (step b)
  | alt a b, c => step a c ++ step b c
  | rep r lo hi, c =>
    iterate (step r) lo
      (match hi with
       | some h => h - lo
       | none => c.2.length) c

/-- Is there a match that starts at the given position? -/
def matchAt (re : Regexp) (c : Cursor) : Bool :=
  !(step re c).isEmpty

/-- Is there a match that starts at the given position or later? -/
def searchFrom (re : Regexp) : Nat → List Char → Bool
  | n, [] => matchAt re (n, [])
  | n, x :: xs => matchAt re (n, x :: xs) || searchFrom re (n + 1) xs

/-- Go `re.MatchString(s)`: does `s` contain any match of the expression?  It
is true exactly when `re.FindStringSubmatch(s)` is not nil, that is, when
`len(re.FindStringSubmatch(s)) > 0`. -/
def MatchString (re : Regexp) (s : String) : Bool :=
  searchFrom re 0 s.data

end Regexp

/-! ## The data model of `main.go` -/

/-- Information of host. -/
structure HostInfo where
  Name : String := ""
  IP : String := ""
  AZ : String := ""

/-- Information of os resource usage.  The lock of the Go struct guards each
access; in a sequential execution an access is a plain read or write. -/
structure ResourceUsage where
  Target : Float
  Current : Float

/-- Information of os resource. -/
structure ResourceInfo where
  CPU : ResourceUsage
  Memory : ResourceUsage

def ResourceUsage.getTarget (ru : ResourceUsage) : Float :=
  ru.Target

def ResourceUsage.setTarget (ru : ResourceUsage) (value : Float) : ResourceUsage :=
  { ru with Target := value }

def ResourceUsage.getCurrent (ru : ResourceUsage) : Float :=
  ru.Current

def ResourceUsage.setCurrent (ru : ResourceUsage) (value : Float) : ResourceUsage :=
  { ru with Current := value }

/-- Information of request. -/
structure RequestInfo where
  Path : String := ""
  Query : String := ""
  Header : List (String × String) := []
  ClientIP : String := ""
  Proxy1IP : String := ""
  Proxy2IP : String := ""
  TargetIP : String := ""
  deriving DecidableEq

/-- QueryString Values. -/
@[ext]
structure QueryString where
  CPU : String := ""
  Memory : String := ""
  Sleep : String := ""
  Size : String := ""
  Status : String := ""
  existsAction : Bool := false
  IfClientIP : String := ""
  IfProxy1IP : String := ""
  IfProxy2IP : String := ""
  IfTargetIP : String := ""
  IfHostIP : String := ""
  IfHost : String := ""
  IfAZ : String := ""
  deriving DecidableEq

/-- Information of directions. -/
structure Direction where
  Input : QueryString := {}
  Process : QueryString := {}
  deriving DecidableEq

/-- Information of response. -/
structure ResponseInfo where
  Host : HostInfo
  Resource : ResourceInfo
  Request : RequestInfo
  Direction : Direction

def QueryString.setValue (qs : QueryString) (key value : String) : QueryString :=
  match key with
  | "cpu" => { qs with CPU := value }
  | "memory" => { qs with Memory := value }
  | "sleep" => { qs with Sleep := value }
  | "size" => { qs with Size := value }
  | "status" => { qs with Status := value }
  | "ifclientip" => { qs with IfClientIP := value }
  | "ifproxy1ip" => { qs with IfProxy1IP := value }
  | "ifproxy2ip" => { qs with IfProxy2IP := value }
  | "iftargetip" => { qs with IfTargetIP := value }
  | "ifhostip" => { qs with IfHostIP := value }
  | "ifhost" => { qs with IfHost := value }
  | "ifaz" => { qs with IfAZ := value }
  | _ => qs

/-! ## The validator table -/

section ValidatorTable

open Regexp

/-- The class `[0-9]`. -/
def digit : Regexp := cls [('0', '9')]

/-- The class `[0-9a-fA-F]`. -/
def hexDigit : Regexp := cls [('0', '9'), ('a', 'f'), ('A', 'F')]

/-- The pattern `^(100|[0-9]{1,2})$`. -/
def regexpPercent : Regexp :=
  seq [beginText, group (alt (lits "100") (rep digit 1 (some 2))), endText]

/-- The pattern `^([0-9]+)(?:-([0-9]+))?$`. -/
def regexpNumRange : Regexp :=
  seq [beginText, group (rep digit 1 none),
    rep (group (cat (lit '-') (group (rep digit 1 none)))) 0 (some 1), endText]

/-- The pattern `^(200|400|403|404|500|502|503|504)$`. -/
def regexpStatus : Regexp :=
  seq [beginText,
    group (alts (lits "200") [lits "400", lits "403", lits "404", lits "500",
      lits "502", lits "503", lits "504"]),
    endText]

/-- The pattern `^([a-zA-Z0-9-.]+)$`. -/
def regexpHostname : Regexp :=
  seq [beginText,
    group (rep (cls [('a', 'z'), ('A', 'Z'), ('0', '9'), ('-', '-'), ('.', '.')]) 1 none),
    endText]

/-- The pattern `^([a-z]{2}-[a-z]+-[1-9][a-d])$`. -/
def regexpAZone : Regexp :=
  seq [beginText,
    group (seq [rep (cls [('a', 'z')]) 2 (some 2), lit '-', rep (cls [('a', 'z')]) 1 none,
      lit '-', cls [('1', '9')], cls [('a', 'd')]]),
    endText]

/-- The alternation `25[0-5]|2[0-4][0-9]|[01]?[0-9][0-9]?` of `regexpIPv4`. -/
def octetIPv4 : Regexp :=
  alts (cat (lits "25") (cls [('0', '5')]))
    [seq [lit '2', cls [('0', '4')], digit],
     seq [rep (cls [('0', '0'), ('1', '1')]) 0 (some 1), digit, rep digit 0 (some 1)]]

/-- The pattern
`^((25[0-5]|2[0-4][0-9]|[01]?[0-9][0-9]?).){3}(?:25[0-5]|2[0-4][0-9]|[01]?[0-9][0-9]?)$`.
The dot after the first group is not escaped in the source: it is the
any-character dot. -/
def regexpIPv4 : Regexp :=
  seq [beginText, rep (group (cat (group octetIPv4) anyCharNotNL)) 3 (some 3),
    group octetIPv4, endText]

/-- The group `([0-9a-fA-F]{1,4}:)` of `regexpIPv6`. -/
def hexColon : Regexp := group (cat (rep hexDigit 1 (some 4)) (lit ':'))

/-- The group `(:[0-9a-fA-F]{1,4})` of `regexpIPv6`. -/
def colonHex : Regexp := group (cat (lit ':') (rep hexDigit 1 (some 4)))

/-- The alternation `25[0-5]|(2[0-4]|1{0,1}[0-9]){0,1}[0-9]` of `regexpIPv6`. -/
def octetIPv6 : Regexp :=
  alt (cat (lits "25") (cls [('0', '5')]))
    (cat
      (rep (group (alt (cat (lit '2') (cls [('0', '4')]))
        (cat (rep (lit '1') 0 (some 1)) digit))) 0 (some 1))
      digit)

/-- The tail
`((25[0-5]|(2[0-4]|1{0,1}[0-9]){0,1}[0-9]).){3,3}(25[0-5]|(2[0-4]|1{0,1}[0-9]){0,1}[0-9])`
of the last two alternatives of `regexpIPv6`; its dots are not escaped
either. -/
def dottedIPv6 : Regexp :=
  cat (rep (group (cat (group octetIPv6) anyCharNotNL)) 3 (some 3)) (group octetIPv6)

/-- The pattern `regexpIPv6`: `^( A1 | ... | A12 )$` with the alternatives
* `([0-9a-fA-F]{1,4}:){7,7}[0-9a-fA-F]{1,4}`
* `([0-9a-fA-F]{1,4}:){1,7}:`
* `([0-9a-fA-F]{1,4}:){1,6}:[0-9a-fA-F]{1,4}`
* `([0-9a-fA-F]{1,4}:){1,5}(:[0-9a-fA-F]{1,4}){1,2}`
* `([0-9a-fA-F]{1,4}:){1,4}(:[0-9a-fA-F]{1,4}){1,3}`
* `([0-9a-fA-F]{1,4}:){1,3}(:[0-9a-fA-F]{1,4}){1,4}`
* `([0-9a-fA-F]{1,4}:){1,2}(:[0-9a-fA-F]{1,4}){1,5}`
* `[0-9a-fA-F]{1,4}:((:[0-9a-fA-F]{1,4}){1,6})`
* `:((:[0-9a-fA-F]{1,4}){1,7}|:)`
* `fe80:(:[0-9a-fA-F]{0,4}){0,4}%[0-9a-zA-Z]{1,}`
* `::(ffff(:0{1,4}){0,1}:){0,1}` followed by `dottedIPv6`
* `([0-9a-fA-F]{1,4}:){1,4}:` followed by `dottedIPv6`. -/
def regexpIPv6 : Regexp :=
  seq [beginText,
    group (alts
      (cat (rep hexColon 7 (some 7)) (rep hexDigit 1 (some 4)))
      [cat (rep hexColon 1 (some 7)) (lit ':'),
       seq [rep hexColon 1 (some 6), lit ':', rep hexDigit 1 (some 4)],
       cat (rep hexColon 1 (some 5)) (rep colonHex 1 (some 2)),
       cat (rep hexColon 1 (some 4)) (rep colonHex 1 (some 3)),
       cat (rep hexColon 1 (some 3)) (rep colonHex 1 (some 4)),
       cat (rep hexColon 1 (some 2)) (rep colonHex 1 (some 5)),
       seq [rep hexDigit 1 (some 4), lit ':', group (rep colonHex 1 (some 6))],
       cat (lit ':') (group (alt (rep colonHex 1 (some 7)) (lit ':'))),
       seq [lits "fe80:", rep (group (cat (lit ':') (rep hexDigit 0 (some 4)))) 0 (some 4),
         lit '%', rep (cls [('0', '9'), ('a', 'z'), ('A', 'Z')]) 1 none],
       seq [lits "::",
         rep (group (seq [lits "ffff",
           rep (group (cat (lit ':') (rep (lit '0') 1 (some 4)))) 0 (some 1), lit ':'])) 0 (some 1),
         dottedIPv6],
       seq [rep hexColon 1 (some 4), lit ':', dottedIPv6]]),
    endText]

/-- The pattern `fmt.Sprintf("(%s|%s)", regexpIPv4, regexpIPv6)` of the five IP
keys: a group around the two anchored patterns. -/
def regexpIP : Regexp :=
  group (alt regexpIPv4 regexpIPv6)

end ValidatorTable

/-- The validator table, a map from key to compiled pattern, as the lookup
`validator[key]`: `none` for a key that is not in the map. -/
def newValidator (key : String) : Option Regexp :=
  match key with
  | "cpu" => some regexpPercent
  | "memory" => some regexpPercent
  | "sleep" => some regexpNumRange
  | "size" => some regexpNumRange
  | "status" => some regexpStatus
  | "ifhost" => some regexpHostname
  | "ifaz" => some regexpAZone
  | "ifhostip" => some regexpIP
  | "iftargetip" => some regexpIP
  | "ifproxy1ip" => some regexpIP
  | "ifproxy2ip" => some regexpIP
  | "ifclientip" => some regexpIP
  | _ => none

/-- Variables that use mutex. -/
structure DataStore where
  host : HostInfo
  resource : ResourceInfo
  validator : String → Option Regexp

/-- The process-wide store as it is initialised; `main` later fills in
`host`, and nothing writes `validator` again. -/
def store : DataStore :=
  { host := {}, resource := ⟨⟨0, 0⟩, ⟨0, 0⟩⟩, validator := newValidator }

/-! ## The request handler -/

/-- A Go `map[string][]string` (`url.Values`, `http.Header`) as an association
list. -/
abbrev Values := List (String × List String)

/-- Go `Header.Get(key)`: the first value of the key, the empty string when the
header is absent. -/
def Values.Get (h : Values) (key : String) : String :=
  match h.lookup key with
  | some (v :: _) => v
  | _ => ""

/-- The part of an `http.Request` the handler reads. -/
structure Request where
  /-- The result of `r.URL.EscapedPath()`. -/
  EscapedPath : String := ""
  /-- The result of `r.URL.Query()`. -/
  Query : Values := []
  /-- The result of `r.URL.Query().Encode()`. -/
  EncodedQuery : String := ""
  Header : Values := []
  Host : String := ""
  RemoteAddr : String := ""

def combineValues (input : Values) : List (String × String) :=
  input.map (fun kv => (kv.1, strings.Join kv.2 ", "))

/-- The body of the loop of `validateQueryString` for one key and its joined
value. -/
def validateEntry (qs : QueryString) (kv : String × String) : QueryString :=
  match store.validator kv.1 with
  | some re =>
    if re.MatchString kv.2 then
      let qs := qs.setValue kv.1 kv.2
      if !strings.HasPrefix kv.1 "if" then { qs with existsAction := true } else qs
    else qs
  | none => qs

def validateQueryString (mapQs : Values) : QueryString :=
  (combineValues mapQs).foldl validateEntry {}

def evaluateQueryString (inputQs : QueryString) : QueryString :=
  if !inputQs.existsAction then {}
  else inputQs

def extractIPAddress (ipport : String) : String :=
  if strings.HasPrefix ipport "[" then
    let parts := strings.Split ipport ':'
    strings.Trim (strings.Join (parts.take (parts.length - 1)) ":") "[]"
  else
    (strings.Split ipport ':').headD ""

def splitXFF (xffStr : String) : List String :=
  (strings.Split xffStr ',').map strings.TrimSpace

def setIPAddresse (reqInfo : RequestInfo) (r : Request) : RequestInfo :=
  let reqInfo := { reqInfo with TargetIP := extractIPAddress r.Host }
  let xff := splitXFF (r.Header.Get "X-Forwarded-For")
  let reqInfo :=
    match xff with
    | [] => { reqInfo with ClientIP := extractIPAddress r.RemoteAddr }
    | x0 :: _ => { reqInfo with ClientIP := x0 }
  let reqInfo :=
    match xff with
    | _ :: x1 :: _ => { reqInfo with Proxy1IP := x1 }
    | _ => reqInfo
  match xff with
  | _ :: _ :: x2 :: _ => { reqInfo with Proxy2IP := x2 }
  | _ => reqInfo

/-- The response document `handler` renders as JSON; `st` is the store at the
time of the request. -/
def handler (st : DataStore) (r : Request) : ResponseInfo :=
  let reqInfo : RequestInfo :=
    { Path := r.EscapedPath, Query := r.EncodedQuery, Header := combineValues r.Header }
  let reqInfo := setIPAddresse reqInfo r
  let inputQs := validateQueryString r.Query
  let processQs := evaluateQueryString inputQs
  { Host := st.host
    Resource :=
      { CPU := ⟨st.resource.CPU.getTarget, st.resource.CPU.getCurrent⟩
        Memory := ⟨st.resource.Memory.getTarget, st.resource.Memory.getCurrent⟩ }
    Request := reqInfo
    Direction := { Input := inputQs, Process := processQs } }

/-! ## Reading the validator, one field at a time -/

/-- Does the validator table accept the value `kv.2` for the key `kv.1`: is
the key in the table, and does the value match the pattern registered for
it? -/
def accepts (kv : String × String) : Bool :=
  match store.validator kv.1 with
  | some re => re.MatchString kv.2
  | none => false

/-- Does `validateQueryString` accept the entry of a query-parameter map: a key
with its list of values? -/
def accepted (kv : String × List String) : Bool :=
  accepts (kv.1, strings.Join kv.2 ", ")

/-- The keys of the action fields. -/
def actionKeys : List String := ["cpu", "memory", "sleep", "size", "status"]

/-- The keys of the condition fields. -/
def conditionKeys : List String :=
  ["ifclientip", "ifproxy1ip", "ifproxy2ip", "iftargetip", "ifhostip", "ifhost", "ifaz"]

/-- The value of a field is empty or matches the pattern that the validator
table registers for the key of the field. -/
def fieldValid (key value : String) : Prop :=
  value ≠ "" → accepts (key, value) = true

/-- The request `?cpu=50&ifclientip=203.0.113.5` that arrives with
`X-Forwarded-For: 203.0.113.9`. -/
def requestOtherClient : Request :=
  { EscapedPath := "/"
    Query := [("cpu", ["50"]), ("ifclientip", ["203.0.113.5"])]
    EncodedQuery := "cpu=50&ifclientip=203.0.113.5"
    Header := [("X-Forwarded-For", ["203.0.113.9"])]
    Host := "192.0.2.10:9000"
    RemoteAddr := "192.168.1.1:54321" }

/-- The request `?cpu=50&ifclientip=203.0.113.5` that arrives with
`X-Forwarded-For: 203.0.113.5`. -/
def requestSameClient : Request :=
  { EscapedPath := "/"
    Query := [("cpu", ["50"]), ("ifclientip", ["203.0.113.5"])]
    EncodedQuery := "cpu=50&ifclientip=203.0.113.5"
    Header := [("X-Forwarded-For", ["203.0.113.5"])]
    Host := "192.0.2.10:9000"
    RemoteAddr := "192.168.1.1:54321" }

/-- A request without `X-Forwarded-For` header from the remote address
`[2001:db8::1]:443`. -/
def requestNotForwarded : Request :=
  { EscapedPath := "/"
    Host := "192.0.2.10:9000"
    RemoteAddr := "[2001:db8::1]:443" }

/-- A request with `X-Forwarded-For: 10.0.0.1, 10.0.0.2, 10.0.0.3` from the
remote address `192.168.1.1:54321`. -/
def requestForwarded : Request :=
  { EscapedPath := "/"
    Header := [("X-Forwarded-For", ["10.0.0.1, 10.0.0.2, 10.0.0.3"])]
    Host := "192.0.2.10:9000"
    RemoteAddr := "192.168.1.1:54321" }

/-- Is the character one of the decimal digits `0` to `9`? -/
def isDecimalDigit (c : Char) : Bool :=
  '0'.toNat ≤ c.toNat && c.toNat ≤ '9'.toNat

/-- Is the character one of the lowercase letters `a` to `z`? -/
def isLowerLetter (c : Char) : Bool :=
  'a'.toNat ≤ c.toNat && c.toNat ≤ 'z'.toNat

/-- The number a sequence of decimal digits denotes. -/
def decimalValue (cs : List Char) : Nat :=
  cs.foldl (fun n c => 10 * n + (c.toNat - '0'.toNat)) 0

/-- The validator stored the string `v`, given as the single value of `key`,
into the field that `field` reads: after validating the map with the one entry
`key = [v]` the field holds `v` and is set, that is, not empty. -/
abbrev stored (key v : String) (field : QueryString → String) : Prop :=
  field (validateQueryString [(key, [v])]) = v ∧ v ≠ ""

/-- Is the character one of the digits `1` to `9`? -/
def isDigit1to9 (c : Char) : Bool :=
  '1'.toNat ≤ c.toNat && c.toNat ≤ '9'.toNat

/-- Is the character one of the letters `a` to `d`? -/
def isLetterAtoD (c : Char) : Bool :=
  'a'.toNat ≤ c.toNat && c.toNat ≤ 'd'.toNat

/-- The form of a value of `sleep` or `size`: a non-empty sequence of decimal
digits (a single number), or two such sequences joined by one `-` (a
range). -/
def isNumberOrRange (v : String) : Prop :=
  ∃ lo : List Char, lo ≠ [] ∧ (∀ c ∈ lo, isDecimalDigit c = true) ∧
    (v.data = lo ∨
      ∃ hi : List Char, hi ≠ [] ∧ (∀ c ∈ hi, isDecimalDigit c = true) ∧
        v.data = lo ++ '-' :: hi)

/-- The form of an availability zone: two lowercase letters, `-`, a word of
one or more lowercase letters, `-`, one digit that `digitOk` admits, one letter
from `a` to `d`. -/
def isAZoneForm (digitOk : Char → Bool) (v : String) : Prop :=
  ∃ (r w : List Char) (d l : Char),
    r.length = 2 ∧ (∀ c ∈ r, isLowerLetter c = true) ∧
    w ≠ [] ∧ (∀ c ∈ w, isLowerLetter c = true) ∧
    digitOk d = true ∧ isLetterAtoD l = true ∧
    v.data = r ++ '-' :: (w ++ ['-', d, l])

theorem newValidator_cases (k : String) :
    (k = "cpu" ∧ newValidator k = some regexpPercent) ∨
    (k = "memory" ∧ newValidator k = some regexpPercent) ∨
    (k = "sleep" ∧ newValidator k = some regexpNumRange) ∨
    (k = "size" ∧ newValidator k = some regexpNumRange) ∨
    (k = "status" ∧ newValidator k = some regexpStatus) ∨
    (k = "ifhost" ∧ newValidator k = some regexpHostname) ∨
    (k = "ifaz" ∧ newValidator k = some regexpAZone) ∨
    (k = "ifhostip" ∧ newValidator k = some regexpIP) ∨
    (k = "iftargetip" ∧ newValidator k = some regexpIP) ∨
    (k = "ifproxy1ip" ∧ newValidator k = some regexpIP) ∨
    (k = "ifproxy2ip" ∧ newValidator k = some regexpIP) ∨
    (k = "ifclientip" ∧ newValidator k = some regexpIP) ∨
    (newValidator k = none) := by
  unfold newValidator
  split <;> simp

theorem hasPrefix_if_keys :
    strings.HasPrefix "cpu" "if" = false ∧ strings.HasPrefix "memory" "if" = false ∧
    strings.HasPrefix "sleep" "if" = false ∧ strings.HasPrefix "size" "if" = false ∧
    strings.HasPrefix "status" "if" = false ∧ strings.HasPrefix "ifhost" "if" = true ∧
    strings.HasPrefix "ifaz" "if" = true ∧ strings.HasPrefix "ifhostip" "if" = true ∧
    strings.HasPrefix "iftargetip" "if" = true ∧ strings.HasPrefix "ifproxy1ip" "if" = true ∧
    strings.HasPrefix "ifproxy2ip" "if" = true ∧ strings.HasPrefix "ifclientip" "if" = true := by
  decide

theorem validateEntry_CPU (q : QueryString) (kv : String × String) :
    (validateEntry q kv).CPU = if kv.1 = "cpu" ∧ accepts kv = true then kv.2 else q.CPU := by
  obtain ⟨k, v⟩ := kv
  rcases newValidator_cases k with ⟨rfl, h⟩ | ⟨rfl, h⟩ | ⟨rfl, h⟩ | ⟨rfl, h⟩ | ⟨rfl, h⟩ | ⟨rfl, h⟩ |
    ⟨rfl, h⟩ | ⟨rfl, h⟩ | ⟨rfl, h⟩ | ⟨rfl, h⟩ | ⟨rfl, h⟩ | ⟨rfl, h⟩ | h <;>
  simp only [validateEntry, accepts, store, h, QueryString.setValue] <;>
  split_ifs <;> simp_all

theorem validateEntry_Memory (q : QueryString) (kv : String × String) :
    (validateEntry q kv).Memory = if kv.1 = "memory" ∧ accepts kv = true then kv.2 else q.Memory := by
  obtain ⟨k, v⟩ := kv
  rcases newValidator_cases k with ⟨rfl, h⟩ | ⟨rfl, h⟩ | ⟨rfl, h⟩ | ⟨rfl, h⟩ | ⟨rfl, h⟩ | ⟨rfl, h⟩ |
    ⟨rfl, h⟩ | ⟨rfl, h⟩ | ⟨rfl, h⟩ | ⟨rfl, h⟩ | ⟨rfl, h⟩ | ⟨rfl, h⟩ | h <;>
  simp only [validateEntry, accepts, store, h, QueryString.setValue] <;>
  split_ifs <;> simp_all

theorem validateEntry_Sleep (q : QueryString) (kv : String × String) :
    (validateEntry q kv).Sleep = if kv.1 = "sleep" ∧ accepts kv = true then kv.2 else q.Sleep := by
  obtain ⟨k, v⟩ := kv
  rcases newValidator_cases k with ⟨rfl, h⟩ | ⟨rfl, h⟩ | ⟨rfl, h⟩ | ⟨rfl, h⟩ | ⟨rfl, h⟩ | ⟨rfl, h⟩ |
    ⟨rfl, h⟩ | ⟨rfl, h⟩ | ⟨rfl, h⟩ | ⟨rfl, h⟩ | ⟨rfl, h⟩ | ⟨rfl, h⟩ | h <;>
  simp only [validateEntry, accepts, store, h, QueryString.setValue] <;>
  split_ifs <;> simp_all

theorem validateEntry_Size (q : QueryString) (kv : String × String) :
    (validateEntry q kv).Size = if kv.1 = "size" ∧ accepts kv = true then kv.2 else q.Size := by
  obtain ⟨k, v⟩ := kv
  rcases newValidator_cases k with ⟨rfl, h⟩ | ⟨rfl, h⟩ | ⟨rfl, h⟩ | ⟨rfl, h⟩ | ⟨rfl, h⟩ | ⟨rfl, h⟩ |
    ⟨rfl, h⟩ | ⟨rfl, h⟩ | ⟨rfl, h⟩ | ⟨rfl, h⟩ | ⟨rfl, h⟩ | ⟨rfl, h⟩ | h <;>
  simp only [validateEntry, accepts, store, h, QueryString.setValue] <;>
  split_ifs <;> simp_all

theorem validateEntry_Status (q : QueryString) (kv : String × String) :
    (validateEntry q kv).Status = if kv.1 = "status" ∧ accepts kv = true then kv.2 else q.Status := by
  obtain ⟨k, v⟩ := kv
  rcases newValidator_cases k with ⟨rfl, h⟩ | ⟨rfl, h⟩ | ⟨rfl, h⟩ | ⟨rfl, h⟩ | ⟨rfl, h⟩ | ⟨rfl, h⟩ |
    ⟨rfl, h⟩ | ⟨rfl, h⟩ | ⟨rfl, h⟩ | ⟨rfl, h⟩ | ⟨rfl, h⟩ | ⟨rfl, h⟩ | h <;>
  simp only [validateEntry, accepts, store, h, QueryString.setValue] <;>
  split_ifs <;> simp_all

theorem validateEntry_IfClientIP (q : QueryString) (kv : String × String) :
    (validateEntry q kv).IfClientIP = if kv.1 = "ifclientip" ∧ accepts kv = true then kv.2 else q.IfClientIP := by
  obtain ⟨k, v⟩ := kv
  rcases newValidator_cases k with ⟨rfl, h⟩ | ⟨rfl, h⟩ | ⟨rfl, h⟩ | ⟨rfl, h⟩ | ⟨rfl, h⟩ | ⟨rfl, h⟩ |
    ⟨rfl, h⟩ | ⟨rfl, h⟩ | ⟨rfl, h⟩ | ⟨rfl, h⟩ | ⟨rfl, h⟩ | ⟨rfl, h⟩ | h <;>
  simp only [validateEntry, accepts, store, h, QueryString.setValue] <;>
  split_ifs <;> simp_all

theorem validateEntry_IfProxy1IP (q : QueryString) (kv : String × String) :
    (validateEntry q kv).IfProxy1IP = if kv.1 = "ifproxy1ip" ∧ accepts kv = true then kv.2 else q.IfProxy1IP := by
  obtain ⟨k, v⟩ := kv
  rcases newValidator_cases k with ⟨rfl, h⟩ | ⟨rfl, h⟩ | ⟨rfl, h⟩ | ⟨rfl, h⟩ | ⟨rfl, h⟩ | ⟨rfl, h⟩ |
    ⟨rfl, h⟩ | ⟨rfl, h⟩ | ⟨rfl, h⟩ | ⟨rfl, h⟩ | ⟨rfl, h⟩ | ⟨rfl, h⟩ | h <;>
  simp only [validateEntry, accepts, store, h, QueryString.setValue] <;>
  split_ifs <;> simp_all

theorem validateEntry_IfProxy2IP (q : QueryString) (kv : String × String) :
    (validateEntry q kv).IfProxy2IP = if kv.1 = "ifproxy2ip" ∧ accepts kv = true then kv.2 else q.IfProxy2IP := by
  obtain ⟨k, v⟩ := kv
  rcases newValidator_cases k with ⟨rfl, h⟩ | ⟨rfl, h⟩ | ⟨rfl, h⟩ | ⟨rfl, h⟩ | ⟨rfl, h⟩ | ⟨rfl, h⟩ |
    ⟨rfl, h⟩ | ⟨rfl, h⟩ | ⟨rfl, h⟩ | ⟨rfl, h⟩ | ⟨rfl, h⟩ | ⟨rfl, h⟩ | h <;>
  simp only [validateEntry, accepts, store, h, QueryString.setValue] <;>
  split_ifs <;> simp_all

theorem validateEntry_IfTargetIP (q : QueryString) (kv : String × String) :
    (validateEntry q kv).IfTargetIP = if kv.1 = "iftargetip" ∧ accepts kv = true then kv.2 else q.IfTargetIP := by
  obtain ⟨k, v⟩ := kv
  rcases newValidator_cases k with ⟨rfl, h⟩ | ⟨rfl, h⟩ | ⟨rfl, h⟩ | ⟨rfl, h⟩ | ⟨rfl, h⟩ | ⟨rfl, h⟩ |
    ⟨rfl, h⟩ | ⟨rfl, h⟩ | ⟨rfl, h⟩ | ⟨rfl, h⟩ | ⟨rfl, h⟩ | ⟨rfl, h⟩ | h <;>
  simp only [validateEntry, accepts, store, h, QueryString.setValue] <;>
  split_ifs <;> simp_all

theorem validateEntry_IfHostIP (q : QueryString) (kv : String × String) :
    (validateEntry q kv).IfHostIP = if kv.1 = "ifhostip" ∧ accepts kv = true then kv.2 else q.IfHostIP := by
  obtain ⟨k, v⟩ := kv
  rcases newValidator_cases k with ⟨rfl, h⟩ | ⟨rfl, h⟩ | ⟨rfl, h⟩ | ⟨rfl, h⟩ | ⟨rfl, h⟩ | ⟨rfl, h⟩ |
    ⟨rfl, h⟩ | ⟨rfl, h⟩ | ⟨rfl, h⟩ | ⟨rfl, h⟩ | ⟨rfl, h⟩ | ⟨rfl, h⟩ | h <;>
  simp only [validateEntry, accepts, store, h, QueryString.setValue] <;>
  split_ifs <;> simp_all

theorem validateEntry_IfHost (q : QueryString) (kv : String × String) :
    (validateEntry q kv).IfHost = if kv.1 = "ifhost" ∧ accepts kv = true then kv.2 else q.IfHost := by
  obtain ⟨k, v⟩ := kv
  rcases newValidator_cases k with ⟨rfl, h⟩ | ⟨rfl, h⟩ | ⟨rfl, h⟩ | ⟨rfl, h⟩ | ⟨rfl, h⟩ | ⟨rfl, h⟩ |
    ⟨rfl, h⟩ | ⟨rfl, h⟩ | ⟨rfl, h⟩ | ⟨rfl, h⟩ | ⟨rfl, h⟩ | ⟨rfl, h⟩ | h <;>
  simp only [validateEntry, accepts, store, h, QueryString.setValue] <;>
  split_ifs <;> simp_all

theorem validateEntry_IfAZ (q : QueryString) (kv : String × String) :
    (validateEntry q kv).IfAZ = if kv.1 = "ifaz" ∧ accepts kv = true then kv.2 else q.IfAZ := by
  obtain ⟨k, v⟩ := kv
  rcases newValidator_cases k with ⟨rfl, h⟩ | ⟨rfl, h⟩ | ⟨rfl, h⟩ | ⟨rfl, h⟩ | ⟨rfl, h⟩ | ⟨rfl, h⟩ |
    ⟨rfl, h⟩ | ⟨rfl, h⟩ | ⟨rfl, h⟩ | ⟨rfl, h⟩ | ⟨rfl, h⟩ | ⟨rfl, h⟩ | h <;>
  simp only [validateEntry, accepts, store, h, QueryString.setValue] <;>
  split_ifs <;> simp_all

theorem validateEntry_existsAction (q : QueryString) (kv : String × String) :
    (validateEntry q kv).existsAction =
      (q.existsAction || (accepts kv && !strings.HasPrefix kv.1 "if")) := by
  obtain ⟨k, v⟩ := kv
  rcases newValidator_cases k with ⟨rfl, h⟩ | ⟨rfl, h⟩ | ⟨rfl, h⟩ | ⟨rfl, h⟩ | ⟨rfl, h⟩ | ⟨rfl, h⟩ |
    ⟨rfl, h⟩ | ⟨rfl, h⟩ | ⟨rfl, h⟩ | ⟨rfl, h⟩ | ⟨rfl, h⟩ | ⟨rfl, h⟩ | h <;>
  simp only [validateEntry, accepts, store, h, QueryString.setValue, hasPrefix_if_keys] <;>
  (try split_ifs) <;> simp_all

/-- An entry the table does not accept leaves the directive set as it is. -/
theorem validateEntry_of_not_accepts (q : QueryString) (kv : String × String)
    (h : accepts kv = false) : validateEntry q kv = q := by
  unfold accepts at h
  unfold validateEntry
  split
  · next re hre => simp only [hre] at h; simp [h]
  · rfl

/-- Entries with different keys can be handled in either order. -/
theorem validateEntry_comm (q : QueryString) (a b : String × String) (hab : a.1 ≠ b.1) :
    validateEntry (validateEntry q a) b = validateEntry (validateEntry q b) a := by
  ext
  all_goals
    simp only [validateEntry_CPU, validateEntry_Memory, validateEntry_Sleep, validateEntry_Size,
      validateEntry_Status, validateEntry_IfClientIP, validateEntry_IfProxy1IP,
      validateEntry_IfProxy2IP, validateEntry_IfTargetIP, validateEntry_IfHostIP,
      validateEntry_IfHost, validateEntry_IfAZ, validateEntry_existsAction]
  case existsAction => simp only [Bool.or_assoc, Bool.or_comm (accepts a && _)]
  all_goals
    split_ifs with h1 h2 h2
    · exact absurd (h2.1.trans h1.1.symm) hab
    all_goals rfl

theorem evaluateQueryString_of_action (q : QueryString) (h : q.existsAction = true) :
    evaluateQueryString q = q := by
  simp [evaluateQueryString, h]

theorem evaluateQueryString_of_no_action (q : QueryString) (h : q.existsAction = false) :
    evaluateQueryString q = {} := by
  simp [evaluateQueryString, h]

theorem accepts_iff (kv : String × String) :
    accepts kv = true ↔ ∃ re, store.validator kv.1 = some re ∧ re.MatchString kv.2 = true := by
  unfold accepts
  split
  · next re hre => simp [hre]
  · next hnone => simp [hnone]

theorem accepts_eq_false_iff (kv : String × String) :
    accepts kv = false ↔
      (store.validator kv.1 = none ∨
        ∃ re, store.validator kv.1 = some re ∧ re.MatchString kv.2 = false) := by
  unfold accepts
  split
  · next re hre => simp [hre]
  · next hnone => simp [hnone]

theorem hasPrefix_if_of_mem_conditionKeys (k : String) (h : k ∈ conditionKeys) :
    strings.HasPrefix k "if" = true := by
  simp only [conditionKeys, List.mem_cons, List.mem_singleton, List.not_mem_nil, or_false] at h
  rcases h with rfl | rfl | rfl | rfl | rfl | rfl | rfl <;> decide

/-- A property of directive sets that every loop round keeps holds of the
result of the loop. -/
theorem foldl_validateEntry_induction (P : QueryString → Prop)
    (hstep : ∀ q kv, P q → P (validateEntry q kv)) :
    ∀ (l : List (String × String)) (q : QueryString), P q → P (l.foldl validateEntry q) := by
  intro l
  induction l with
  | nil => intro q hq; exact hq
  | cons kv l ih => intro q hq; exact ih _ (hstep q kv hq)

/-- Accepted condition keys alone leave the flag `existsAction` unset. -/
theorem foldl_validateEntry_no_action :
    ∀ (m : Values) (q : QueryString), q.existsAction = false →
      (∀ kv ∈ m, accepted kv = true → kv.1 ∈ conditionKeys) →
      ((combineValues m).foldl validateEntry q).existsAction = false := by
  intro m
  induction m with
  | nil => intro q hq _; exact hq
  | cons kv m ih =>
    intro q hq h
    simp only [combineValues, List.map_cons, List.foldl_cons]
    apply ih
    · rw [validateEntry_existsAction, hq]
      by_cases hacc : accepted kv = true
      · have hk := hasPrefix_if_of_mem_conditionKeys kv.1 (h kv (List.mem_cons_self _ _) hacc)
        simp [hk]
      · have hacc2 : accepts (kv.1, strings.Join kv.2 ", ") = false := by
          simpa [accepted] using hacc
        simp [hacc2]
    · intro kv2 hkv2 hacc
      exact h kv2 (List.mem_cons_of_mem _ hkv2) hacc

/-- Entries the table rejects can be left out of the loop. -/
theorem foldl_validateEntry_filter (k : String) :
    ∀ (m : Values) (q : QueryString), (∀ kv ∈ m, kv.1 = k → accepted kv = false) →
      (combineValues m).foldl validateEntry q =
        (combineValues (m.filter (fun kv => kv.1 ≠ k))).foldl validateEntry q := by
  intro m
  induction m with
  | nil => intro q _; rfl
  | cons kv m ih =>
    intro q h
    have hrest : ∀ kv2 ∈ m, kv2.1 = k → accepted kv2 = false :=
      fun kv2 hkv2 => h kv2 (List.mem_cons_of_mem _ hkv2)
    by_cases hk : kv.1 = k
    · have hacc : accepts (kv.1, strings.Join kv.2 ", ") = false :=
        h kv (List.mem_cons_self _ _) hk
      have hfilter : (kv :: m).filter (fun kv => kv.1 ≠ k) = m.filter (fun kv => kv.1 ≠ k) := by
        simp [List.filter_cons, hk]
      rw [hfilter]
      simp only [combineValues, List.map_cons, List.foldl_cons]
      rw [validateEntry_of_not_accepts _ _ hacc]
      exact ih q hrest
    · have hfilter : (kv :: m).filter (fun kv => kv.1 ≠ k) =
          kv :: m.filter (fun kv => kv.1 ≠ k) := by
        simp [List.filter_cons, hk]
      rw [hfilter]
      simp only [combineValues, List.map_cons, List.foldl_cons]
      exact ih _ hrest

theorem fieldValid_update (key : String) (kv : String × String) (old : String)
    (h : fieldValid key old) :
    fieldValid key (if kv.1 = key ∧ accepts kv = true then kv.2 else old) := by
  split_ifs with hc
  · intro _
    obtain ⟨hk, hacc⟩ := hc
    rw [← hk]
    exact hacc
  · exact h

/-- No pattern of an action key matches the empty string. -/
theorem action_value_ne_empty (k v : String) (hk : k ∈ actionKeys)
    (hacc : accepts (k, v) = true) : v ≠ "" := by
  intro hv
  subst hv
  simp only [actionKeys, List.mem_cons, List.mem_singleton, List.not_mem_nil, or_false] at hk
  rcases hk with rfl | rfl | rfl | rfl | rfl <;> revert hacc <;> decide

/-- One loop round keeps: the flag is set exactly when an action field is
not empty. -/
theorem validateEntry_action_flag (q : QueryString) (kv : String × String)
    (hq : q.existsAction = true ↔
      (q.CPU ≠ "" ∨ q.Memory ≠ "" ∨ q.Sleep ≠ "" ∨ q.Size ≠ "" ∨ q.Status ≠ "")) :
    (validateEntry q kv).existsAction = true ↔
      ((validateEntry q kv).CPU ≠ "" ∨ (validateEntry q kv).Memory ≠ "" ∨
        (validateEntry q kv).Sleep ≠ "" ∨ (validateEntry q kv).Size ≠ "" ∨
        (validateEntry q kv).Status ≠ "") := by
  by_cases hacc : accepts kv = true
  · obtain ⟨k, v⟩ := kv
    have hne : k ∈ actionKeys → v ≠ "" := fun hk => action_value_ne_empty k v hk hacc
    simp only [validateEntry_existsAction, validateEntry_CPU, validateEntry_Memory,
      validateEntry_Sleep, validateEntry_Size, validateEntry_Status, hacc]
    rcases newValidator_cases k with ⟨rfl, h⟩ | ⟨rfl, h⟩ | ⟨rfl, h⟩ | ⟨rfl, h⟩ | ⟨rfl, h⟩ |
      ⟨rfl, h⟩ | ⟨rfl, h⟩ | ⟨rfl, h⟩ | ⟨rfl, h⟩ | ⟨rfl, h⟩ | ⟨rfl, h⟩ | ⟨rfl, h⟩ | h
    all_goals
      first
      | (have hv := hne (by decide)
         simp [hasPrefix_if_keys, hv])
      | (simp only [hasPrefix_if_keys]
         simpa using hq)
      | simp [accepts, store, h] at hacc
  · have hacc2 : accepts kv = false := by simpa using hacc
    rw [validateEntry_of_not_accepts _ _ hacc2]
    exact hq

/-! ## Splitting a joined list -/

theorem splitChars_of_not_mem (sep : Char) :
    ∀ a : List Char, sep ∉ a → strings.splitChars sep a = [a] := by
  intro a
  induction a with
  | nil => intro _; rfl
  | cons c cs ih =>
    intro h
    have hc : c ≠ sep := fun hc => h (hc ▸ List.mem_cons_self _ _)
    have hcs : sep ∉ cs := fun hm => h (List.mem_cons_of_mem _ hm)
    simp [strings.splitChars, hc, ih hcs]

theorem splitChars_append_sep (sep : Char) (rest : List Char) :
    ∀ a : List Char, sep ∉ a →
      strings.splitChars sep (a ++ sep :: rest) = a :: strings.splitChars sep rest := by
  intro a
  induction a with
  | nil => intro _; simp [strings.splitChars]
  | cons c cs ih =>
    intro h
    have hc : c ≠ sep := fun hc => h (hc ▸ List.mem_cons_self _ _)
    have hcs : sep ∉ cs := fun hm => h (List.mem_cons_of_mem _ hm)
    simp [strings.splitChars, hc, ih hcs]

/-- Splitting the join of separator-free pieces gives the pieces back. -/
theorem Split_Join (sep : Char) (sepStr : String) (hsep : sepStr.data = [sep]) :
    ∀ segs : List String, segs ≠ [] → (∀ s ∈ segs, sep ∉ s.data) →
      strings.Split (strings.Join segs sepStr) sep = segs := by
  intro segs
  induction segs with
  | nil => intro h; exact absurd rfl h
  | cons e es ih =>
    intro _ hfree
    have he : sep ∉ e.data := hfree e (List.mem_cons_self _ _)
    cases es with
    | nil => simp [strings.Join, strings.Split, splitChars_of_not_mem sep e.data he]
    | cons e2 es2 =>
      have ih2 := ih (List.cons_ne_nil _ _) (fun s hs => hfree s (List.mem_cons_of_mem _ hs))
      simp only [strings.Split] at ih2
      simp only [strings.Join, strings.Split, String.data_append, hsep, List.append_assoc,
        List.singleton_append, splitChars_append_sep sep _ e.data he, List.map_cons, ih2]

theorem splitXFF_Join (segs : List String) (hne : segs ≠ [])
    (hfree : ∀ s ∈ segs, ',' ∉ s.data) :
    splitXFF (strings.Join segs ",") = segs.map strings.TrimSpace := by
  simp only [splitXFF, Split_Join ',' "," rfl segs hne hfree]

/-! ## The directive evaluator -/

/-- C1 (the claim as written fails here): the query
`cpu=50&ifclientip=203.0.113.5` of a request whose resolved clientIP is
`203.0.113.9` validates to a set with `existsAction` true and the condition
`ifclientip = 203.0.113.5`, which differs from the clientIP, and the processed
set is not empty: it still carries `cpu = 50`. -/
theorem ifClientIP_mismatch_not_suppressed :
    (handler store requestOtherClient).Direction.Input.existsAction = true ∧
    (handler store requestOtherClient).Direction.Input.IfClientIP = "203.0.113.5" ∧
    (handler store requestOtherClient).Request.ClientIP = "203.0.113.9" ∧
    (handler store requestOtherClient).Direction.Process.CPU = "50" ∧
    (handler store requestOtherClient).Direction.Process ≠ {} := by
  decide

/-- C1 (amended): for every request whose validated input set has
`existsAction` true and a present `ifclientip` condition that differs from the
resolved clientIP, the processed set is the input set itself, unchanged, and so
it is not empty: `evaluateQueryString` compares no condition with the request
facts. -/
theorem evaluate_ignores_ifClientIP (st : DataStore) (r : Request)
    (hact : (handler st r).Direction.Input.existsAction = true)
    (_hpresent : (handler st r).Direction.Input.IfClientIP ≠ "")
    (_hdiff : (handler st r).Direction.Input.IfClientIP ≠ (handler st r).Request.ClientIP) :
    (handler st r).Direction.Process = (handler st r).Direction.Input ∧
    (handler st r).Direction.Process ≠ {} := by
  have heq : (handler st r).Direction.Process = (handler st r).Direction.Input :=
    evaluateQueryString_of_action _ hact
  refine ⟨heq, ?_⟩
  intro hempty
  rw [heq] at hempty
  rw [hempty] at hact
  exact Bool.false_ne_true hact

/-- The amended C1 at the request `requestOtherClient`. -/
theorem evaluate_ignores_ifClientIP_witness :
    (handler store requestOtherClient).Direction.Input.IfClientIP = "203.0.113.5" ∧
    (handler store requestOtherClient).Request.ClientIP = "203.0.113.9" ∧
    (handler store requestOtherClient).Direction.Process =
      (handler store requestOtherClient).Direction.Input ∧
    (handler store requestOtherClient).Direction.Process ≠ {} :=
  ⟨by decide, by decide,
    evaluate_ignores_ifClientIP store requestOtherClient (by decide) (by decide) (by decide)⟩

/-- C2: for every request whose validated input set has `existsAction` true,
every action field (cpu, memory, sleep, size, status) of the processed set
equals the same field of the input set.  This holds whatever the request facts
are, so in particular when every present condition matches them. -/
theorem evaluate_keeps_actions (st : DataStore) (r : Request)
    (hact : (handler st r).Direction.Input.existsAction = true) :
    (handler st r).Direction.Process.CPU = (handler st r).Direction.Input.CPU ∧
    (handler st r).Direction.Process.Memory = (handler st r).Direction.Input.Memory ∧
    (handler st r).Direction.Process.Sleep = (handler st r).Direction.Input.Sleep ∧
    (handler st r).Direction.Process.Size = (handler st r).Direction.Input.Size ∧
    (handler st r).Direction.Process.Status = (handler st r).Direction.Input.Status := by
  have heq : (handler st r).Direction.Process = (handler st r).Direction.Input :=
    evaluateQueryString_of_action _ hact
  rw [heq]
  exact ⟨rfl, rfl, rfl, rfl, rfl⟩

/-- C2 at the request `requestSameClient`: the condition matches the resolved
clientIP and the processed set has `cpu = 50`. -/
theorem evaluate_keeps_actions_witness :
    (handler store requestSameClient).Direction.Input.IfClientIP = "203.0.113.5" ∧
    (handler store requestSameClient).Request.ClientIP = "203.0.113.5" ∧
    (handler store requestSameClient).Direction.Process.CPU = "50" :=
  ⟨by decide, by decide,
    (evaluate_keeps_actions store requestSameClient (by decide)).1.trans (by decide)⟩

/-- C3: for every query-parameter map in which every accepted key is a
condition key and none is an action key, the evaluator returns the empty
directive set for the validated map, in every request that carries the map,
whatever its other facts are. -/
theorem conditions_only_evaluates_empty (m : Values)
    (h : ∀ kv ∈ m, accepted kv = true → kv.1 ∈ conditionKeys ∧ kv.1 ∉ actionKeys) :
    evaluateQueryString (validateQueryString m) = {} ∧
    ∀ (st : DataStore) (r : Request), r.Query = m →
      (handler st r).Direction.Process = {} := by
  have hflag : (validateQueryString m).existsAction = false :=
    foldl_validateEntry_no_action m {} rfl (fun kv hkv hacc => (h kv hkv hacc).1)
  refine ⟨evaluateQueryString_of_no_action _ hflag, ?_⟩
  intro st r hr
  subst hr
  exact evaluateQueryString_of_no_action _ hflag

/-- C3 at a map with two accepted condition keys and a rejected action key. -/
theorem conditions_only_evaluates_empty_witness :
    (validateQueryString
      [("ifclientip", ["203.0.113.5"]), ("ifhost", ["web-1"]), ("cpu", ["150"])]).IfHost =
        "web-1" ∧
    evaluateQueryString (validateQueryString
      [("ifclientip", ["203.0.113.5"]), ("ifhost", ["web-1"]), ("cpu", ["150"])]) = {} :=
  ⟨by decide,
    (conditions_only_evaluates_empty
      [("ifclientip", ["203.0.113.5"]), ("ifhost", ["web-1"]), ("cpu", ["150"])]
      (by decide)).1⟩

/-! ## The client-chain resolver -/

/-- C4 (the code departs from the claim): for the request without
`X-Forwarded-For` header from the remote address `[2001:db8::1]:443` the
resolved clientIP is the empty string, although the host portion of the remote
address is `2001:db8::1`: splitting the empty header value yields one empty
segment, so the chain is never empty.  proxy1IP and proxy2IP are empty. -/
theorem no_forwarding_header_clientIP_empty :
    requestNotForwarded.Header.Get "X-Forwarded-For" = "" ∧
    splitXFF "" = [""] ∧
    extractIPAddress requestNotForwarded.RemoteAddr = "2001:db8::1" ∧
    (handler store requestNotForwarded).Request.ClientIP = "" ∧
    (handler store requestNotForwarded).Request.Proxy1IP = "" ∧
    (handler store requestNotForwarded).Request.Proxy2IP = "" := by
  decide

/-- C5: when the `X-Forwarded-For` value is the comma-join of `n ≥ 1`
comma-free segments, `setIPAddresse`, started as in `handler` with empty proxy
fields, sets clientIP to segment 0 trimmed, proxy1IP to segment 1 trimmed if
`n ≥ 2` and leaves it empty otherwise, proxy2IP to segment 2 trimmed if `n ≥ 3`
and leaves it empty otherwise; a request with the same host whose header holds
only the first three segments gets the same result. -/
theorem setIPAddresse_forwarded (reqInfo : RequestInfo) (r : Request) (segs : List String)
    (hne : segs ≠ []) (hfree : ∀ s ∈ segs, ',' ∉ s.data)
    (hxff : r.Header.Get "X-Forwarded-For" = strings.Join segs ",")
    (hp1 : reqInfo.Proxy1IP = "") (hp2 : reqInfo.Proxy2IP = "") :
    (setIPAddresse reqInfo r).ClientIP = strings.TrimSpace (segs.getD 0 "") ∧
    (setIPAddresse reqInfo r).Proxy1IP =
      (if 2 ≤ segs.length then strings.TrimSpace (segs.getD 1 "") else "") ∧
    (setIPAddresse reqInfo r).Proxy2IP =
      (if 3 ≤ segs.length then strings.TrimSpace (segs.getD 2 "") else "") ∧
    ∀ r2 : Request, r2.Host = r.Host →
      r2.Header.Get "X-Forwarded-For" = strings.Join (segs.take 3) "," →
      setIPAddresse reqInfo r2 = setIPAddresse reqInfo r := by
  have hsplit := splitXFF_Join segs hne hfree
  have htake : splitXFF (strings.Join (segs.take 3) ",") =
      (segs.take 3).map strings.TrimSpace := by
    apply splitXFF_Join
    · cases segs with
      | nil => exact absurd rfl hne
      | cons a t => simp
    · intro s hs
      exact hfree s (List.mem_of_mem_take hs)
  match segs, hne with
  | [a], _ =>
    refine ⟨?_, ?_, ?_, ?_⟩
    · simp [setIPAddresse, hxff, hsplit]
    · simp [setIPAddresse, hxff, hsplit, hp1]
    · simp [setIPAddresse, hxff, hsplit, hp2]
    · intro r2 hhost hx
      simp [setIPAddresse, hxff, hsplit, hx, hhost]
  | [a, b], _ =>
    refine ⟨?_, ?_, ?_, ?_⟩
    · simp [setIPAddresse, hxff, hsplit]
    · simp [setIPAddresse, hxff, hsplit]
    · simp [setIPAddresse, hxff, hsplit, hp2]
    · intro r2 hhost hx
      simp [setIPAddresse, hxff, hsplit, hx, hhost]
  | a :: b :: c :: rest, _ =>
    refine ⟨?_, ?_, ?_, ?_⟩
    · simp [setIPAddresse, hxff, hsplit]
    · simp [setIPAddresse, hxff, hsplit]
    · simp [setIPAddresse, hxff, hsplit]
    · intro r2 hhost hx
      simp only [List.take_succ_cons, List.take_zero, List.map_cons, List.map_nil] at htake
      simp [setIPAddresse, hxff, hsplit, hx, hhost, htake]

/-- C5 at the request `requestForwarded`. -/
theorem setIPAddresse_forwarded_witness :
    requestForwarded.Header.Get "X-Forwarded-For" = "10.0.0.1, 10.0.0.2, 10.0.0.3" ∧
    (setIPAddresse {} requestForwarded).ClientIP = "10.0.0.1" ∧
    (setIPAddresse {} requestForwarded).Proxy1IP = "10.0.0.2" ∧
    (setIPAddresse {} requestForwarded).Proxy2IP = "10.0.0.3" :=
  have h := setIPAddresse_forwarded {} requestForwarded ["10.0.0.1", " 10.0.0.2", " 10.0.0.3"]
    (by decide) (by decide) (by decide) rfl rfl
  ⟨by decide, h.1.trans (by decide), h.2.1.trans (by decide), h.2.2.1.trans (by decide)⟩

/-! ## The directive validator -/

/-- C6: for every query-parameter map with pairwise distinct keys, visiting
its entries in any two orders yields the same directive set, the flag
`existsAction` included. -/
theorem validateQueryString_order_independent (m m2 : Values)
    (hkeys : (m.map Prod.fst).Nodup) (hperm : m.Perm m2) :
    validateQueryString m = validateQueryString m2 := by
  unfold validateQueryString
  apply List.Perm.foldl_eq' (hperm.map _)
  intro x hx y hy q
  by_cases hxy : x.1 = y.1
  · obtain ⟨a, ha, rfl⟩ := List.mem_map.1 hx
    obtain ⟨b, hb, rfl⟩ := List.mem_map.1 hy
    have hab : a = b := List.inj_on_of_nodup_map hkeys ha hb hxy
    rw [hab]
  · exact validateEntry_comm q x y hxy

/-- C6 at a map of three keys, visited forwards and backwards. -/
theorem validateQueryString_order_independent_witness :
    validateQueryString [("cpu", ["50"]), ("ifclientip", ["203.0.113.5"]), ("x", [])] =
      validateQueryString [("x", []), ("ifclientip", ["203.0.113.5"]), ("cpu", ["50"])] :=
  validateQueryString_order_independent
    [("cpu", ["50"]), ("ifclientip", ["203.0.113.5"]), ("x", [])]
    [("x", []), ("ifclientip", ["203.0.113.5"]), ("cpu", ["50"])]
    (by decide) (by decide)

/-- C7: when the key `k` is not in the validator table, or the joined value of
`k` fails the pattern of `k`, validating the map gives the same directive set
as validating the map without `k`. -/
theorem validateQueryString_drops_rejected (m : Values) (k : String)
    (h : ∀ vs, (k, vs) ∈ m →
      (store.validator k = none ∨
        ∃ re, store.validator k = some re ∧ re.MatchString (strings.Join vs ", ") = false)) :
    validateQueryString m = validateQueryString (m.filter (fun kv => kv.1 ≠ k)) := by
  unfold validateQueryString
  apply foldl_validateEntry_filter
  intro kv hkv hk
  obtain ⟨k2, vs⟩ := kv
  simp only at hk
  subst hk
  exact (accepts_eq_false_iff (k2, strings.Join vs ", ")).2 (h vs hkv)

/-- C7 at the map `cpu=150`: the value fails the pattern of `cpu`, and the
validated set has no field set and `existsAction` false. -/
theorem validateQueryString_drops_rejected_witness :
    regexpPercent.MatchString "150" = false ∧
    validateQueryString [("cpu", ["150"])] = {} :=
  ⟨by decide,
    (validateQueryString_drops_rejected [("cpu", ["150"])] "cpu" (by
      intro vs hvs
      have hvs2 : vs = ["150"] := by simpa using hvs
      subst hvs2
      exact Or.inr ⟨regexpPercent, rfl, by decide⟩)).trans (by decide)⟩

/-- The loop of the validator keeps every field empty or valid. -/
theorem validateQueryString_fieldValid (m : Values) :
    fieldValid "cpu" (validateQueryString m).CPU ∧
    fieldValid "memory" (validateQueryString m).Memory ∧
    fieldValid "sleep" (validateQueryString m).Sleep ∧
    fieldValid "size" (validateQueryString m).Size ∧
    fieldValid "status" (validateQueryString m).Status ∧
    fieldValid "ifclientip" (validateQueryString m).IfClientIP ∧
    fieldValid "ifproxy1ip" (validateQueryString m).IfProxy1IP ∧
    fieldValid "ifproxy2ip" (validateQueryString m).IfProxy2IP ∧
    fieldValid "iftargetip" (validateQueryString m).IfTargetIP ∧
    fieldValid "ifhostip" (validateQueryString m).IfHostIP ∧
    fieldValid "ifhost" (validateQueryString m).IfHost ∧
    fieldValid "ifaz" (validateQueryString m).IfAZ := by
  unfold validateQueryString
  apply foldl_validateEntry_induction
    (fun q => fieldValid "cpu" q.CPU ∧ fieldValid "memory" q.Memory ∧
      fieldValid "sleep" q.Sleep ∧ fieldValid "size" q.Size ∧ fieldValid "status" q.Status ∧
      fieldValid "ifclientip" q.IfClientIP ∧ fieldValid "ifproxy1ip" q.IfProxy1IP ∧
      fieldValid "ifproxy2ip" q.IfProxy2IP ∧ fieldValid "iftargetip" q.IfTargetIP ∧
      fieldValid "ifhostip" q.IfHostIP ∧ fieldValid "ifhost" q.IfHost ∧
      fieldValid "ifaz" q.IfAZ)
  · intro q kv hq
    obtain ⟨h1, h2, h3, h4, h5, h6, h7, h8, h9, h10, h11, h12⟩ := hq
    simp only [validateEntry_CPU, validateEntry_Memory, validateEntry_Sleep, validateEntry_Size,
      validateEntry_Status, validateEntry_IfClientIP, validateEntry_IfProxy1IP,
      validateEntry_IfProxy2IP, validateEntry_IfTargetIP, validateEntry_IfHostIP,
      validateEntry_IfHost, validateEntry_IfAZ]
    exact ⟨fieldValid_update _ kv _ h1, fieldValid_update _ kv _ h2,
      fieldValid_update _ kv _ h3, fieldValid_update _ kv _ h4, fieldValid_update _ kv _ h5,
      fieldValid_update _ kv _ h6, fieldValid_update _ kv _ h7, fieldValid_update _ kv _ h8,
      fieldValid_update _ kv _ h9, fieldValid_update _ kv _ h10, fieldValid_update _ kv _ h11,
      fieldValid_update _ kv _ h12⟩
  · simp [fieldValid]

/-- C8: every non-empty field of a validated directive set matches the pattern
that the validator table registers for the key of that field: CPU for `cpu`,
Memory for `memory`, Sleep for `sleep`, Size for `size`, Status for `status`,
IfClientIP for `ifclientip`, IfProxy1IP for `ifproxy1ip`, IfProxy2IP for
`ifproxy2ip`, IfTargetIP for `iftargetip`, IfHostIP for `ifhostip`, IfHost for
`ifhost`, IfAZ for `ifaz`. -/
theorem validateQueryString_fields_valid (m : Values) :
    ((validateQueryString m).CPU ≠ "" →
      accepts ("cpu", (validateQueryString m).CPU) = true) ∧
    ((validateQueryString m).Memory ≠ "" →
      accepts ("memory", (validateQueryString m).Memory) = true) ∧
    ((validateQueryString m).Sleep ≠ "" →
      accepts ("sleep", (validateQueryString m).Sleep) = true) ∧
    ((validateQueryString m).Size ≠ "" →
      accepts ("size", (validateQueryString m).Size) = true) ∧
    ((validateQueryString m).Status ≠ "" →
      accepts ("status", (validateQueryString m).Status) = true) ∧
    ((validateQueryString m).IfClientIP ≠ "" →
      accepts ("ifclientip", (validateQueryString m).IfClientIP) = true) ∧
    ((validateQueryString m).IfProxy1IP ≠ "" →
      accepts ("ifproxy1ip", (validateQueryString m).IfProxy1IP) = true) ∧
    ((validateQueryString m).IfProxy2IP ≠ "" →
      accepts ("ifproxy2ip", (validateQueryString m).IfProxy2IP) = true) ∧
    ((validateQueryString m).IfTargetIP ≠ "" →
      accepts ("iftargetip", (validateQueryString m).IfTargetIP) = true) ∧
    ((validateQueryString m).IfHostIP ≠ "" →
      accepts ("ifhostip", (validateQueryString m).IfHostIP) = true) ∧
    ((validateQueryString m).IfHost ≠ "" →
      accepts ("ifhost", (validateQueryString m).IfHost) = true) ∧
    ((validateQueryString m).IfAZ ≠ "" →
      accepts ("ifaz", (validateQueryString m).IfAZ) = true) :=
  validateQueryString_fieldValid m

/-- C8 at the map `cpu=50`: the field CPU is set, and its value matches the
pattern of `cpu`. -/
theorem validateQueryString_fields_valid_witness :
    (validateQueryString [("cpu", ["50"])]).CPU = "50" ∧
    accepts ("cpu", (validateQueryString [("cpu", ["50"])]).CPU) = true :=
  ⟨by decide, (validateQueryString_fields_valid [("cpu", ["50"])]).1 (by decide)⟩

/-- C9: the flag `existsAction` of a validated directive set is true exactly
when one of the action fields CPU, Memory, Sleep, Size, Status is not empty;
no condition field takes part. -/
theorem validateQueryString_existsAction_iff (m : Values) :
    (validateQueryString m).existsAction = true ↔
      ((validateQueryString m).CPU ≠ "" ∨ (validateQueryString m).Memory ≠ "" ∨
        (validateQueryString m).Sleep ≠ "" ∨ (validateQueryString m).Size ≠ "" ∨
        (validateQueryString m).Status ≠ "") := by
  unfold validateQueryString
  apply foldl_validateEntry_induction
    (fun q => q.existsAction = true ↔
      (q.CPU ≠ "" ∨ q.Memory ≠ "" ∨ q.Sleep ≠ "" ∨ q.Size ≠ "" ∨ q.Status ≠ ""))
  · intro q kv hq
    exact validateEntry_action_flag q kv hq
  · simp

/-- C10 (the code departs from the claim): for each of the five IP condition
keys the validator stores the value `1a2b3c4`, which has no dot and no colon
and so is neither an IPv4 literal nor an IPv6 literal: the dot between the
octets of `regexpIPv4` is the any-character dot. -/
theorem ip_validator_accepts_non_address :
    (validateQueryString [("ifclientip", ["1a2b3c4"])]).IfClientIP = "1a2b3c4" ∧
    (validateQueryString [("ifproxy1ip", ["1a2b3c4"])]).IfProxy1IP = "1a2b3c4" ∧
    (validateQueryString [("ifproxy2ip", ["1a2b3c4"])]).IfProxy2IP = "1a2b3c4" ∧
    (validateQueryString [("iftargetip", ["1a2b3c4"])]).IfTargetIP = "1a2b3c4" ∧
    (validateQueryString [("ifhostip", ["1a2b3c4"])]).IfHostIP = "1a2b3c4" ∧
    '.' ∉ "1a2b3c4".data ∧ ':' ∉ "1a2b3c4".data := by
  decide

/-! ## Reading the matcher: which positions a match can reach -/

namespace Regexp

theorem matchAt_iff (re : Regexp) (c : Cursor) :
    matchAt re c = true ↔ ∃ c2, c2 ∈ step re c := by
  unfold matchAt
  cases h : step re c with
  | nil => simp
  | cons a l => simp

theorem mem_step_cat (a b : Regexp) (c c2 : Cursor) :
    c2 ∈ step (cat a b) c ↔ ∃ m, m ∈ step a c ∧ c2 ∈ step b m := by
  simp only [step, List.mem_flatMap]

theorem mem_step_alt (a b : Regexp) (c c2 : Cursor) :
    c2 ∈ step (alt a b) c ↔ c2 ∈ step a c ∨ c2 ∈ step b c := by
  simp only [step, List.mem_append]

theorem mem_step_group (r : Regexp) (c c2 : Cursor) :
    c2 ∈ step (group r) c ↔ c2 ∈ step r c := by
  simp only [step]

theorem mem_step_empty (c c2 : Cursor) : c2 ∈ step empty c ↔ c2 = c := by
  simp only [step, List.mem_singleton]

theorem mem_step_beginText (c c2 : Cursor) :
    c2 ∈ step beginText c ↔ c.1 = 0 ∧ c2 = c := by
  simp only [step]
  split_ifs with h <;> simp [h]

theorem mem_step_endText (c c2 : Cursor) :
    c2 ∈ step endText c ↔ c.2 = [] ∧ c2 = c := by
  obtain ⟨n, s⟩ := c
  cases s <;> simp [step]

theorem mem_step_lit (a : Char) (n : Nat) (s : List Char) (c2 : Cursor) :
    c2 ∈ step (lit a) (n, s) ↔ s = a :: c2.2 ∧ c2.1 = n + 1 := by
  obtain ⟨n2, s2⟩ := c2
  cases s with
  | nil => simp [step]
  | cons x xs =>
    simp only [step]
    split_ifs with h
    · subst h
      simp only [List.mem_singleton, Prod.mk.injEq, List.cons.injEq, true_and]
      constructor
      · rintro ⟨rfl, rfl⟩; exact ⟨rfl, rfl⟩
      · rintro ⟨rfl, rfl⟩; exact ⟨rfl, rfl⟩
    · simp only [List.not_mem_nil, false_iff]
      rintro ⟨h1, _⟩
      simp only [List.cons.injEq] at h1
      exact h h1.1

theorem mem_step_cls (ranges : List (Char × Char)) (n : Nat) (s : List Char) (c2 : Cursor) :
    c2 ∈ step (cls ranges) (n, s) ↔
      ∃ x, inClass ranges x = true ∧ s = x :: c2.2 ∧ c2.1 = n + 1 := by
  obtain ⟨n2, s2⟩ := c2
  cases s with
  | nil => simp [step]
  | cons x xs =>
    simp only [step]
    split_ifs with h
    · simp only [List.mem_singleton, Prod.mk.injEq, List.cons.injEq]
      constructor
      · rintro ⟨rfl, rfl⟩; exact ⟨x, h, ⟨rfl, rfl⟩, rfl⟩
      · rintro ⟨y, _, ⟨_, rfl⟩, rfl⟩; exact ⟨rfl, rfl⟩
    · simp only [List.not_mem_nil, false_iff]
      rintro ⟨y, hy, h1, _⟩
      simp only [List.cons.injEq] at h1
      rw [h1.1] at h
      exact h hy

theorem mem_step_lits (l : List Char) :
    ∀ (n : Nat) (s : List Char) (c2 : Cursor),
      c2 ∈ step (l.foldr (fun c r => cat (lit c) r) empty) (n, s) ↔
        s = l ++ c2.2 ∧ c2.1 = n + l.length := by
  induction l with
  | nil =>
    intro n s c2
    obtain ⟨n2, s2⟩ := c2
    simp [mem_step_empty]; tauto
  | cons a l ih =>
    intro n s c2
    simp only [List.foldr_cons, mem_step_cat, List.length_cons, List.cons_append]
    constructor
    · rintro ⟨⟨n1, s1⟩, h1, h2⟩
      rw [mem_step_lit] at h1
      rw [ih] at h2
      simp only at h1 h2
      obtain ⟨rfl, rfl⟩ := h1
      obtain ⟨rfl, h3⟩ := h2
      exact ⟨rfl, by omega⟩
    · rintro ⟨rfl, h3⟩
      refine ⟨(n + 1, l ++ c2.2), ?_, ?_⟩
      · rw [mem_step_lit]; exact ⟨rfl, rfl⟩
      · rw [ih]; exact ⟨rfl, by omega⟩

theorem mem_upTo_cls (ranges : List (Char × Char)) :
    ∀ (e n : Nat) (s : List Char) (c2 : Cursor),
      c2 ∈ upTo (step (cls ranges)) e (n, s) ↔
        ∃ pre : List Char, pre.length ≤ e ∧ (∀ x ∈ pre, inClass ranges x = true) ∧
          s = pre ++ c2.2 ∧ c2.1 = n + pre.length := by
  intro e
  induction e with
  | zero =>
    intro n s c2
    obtain ⟨n2, s2⟩ := c2
    simp only [upTo, List.mem_singleton, Prod.mk.injEq]
    constructor
    · rintro ⟨rfl, rfl⟩
      exact ⟨[], by simp, by simp, rfl, rfl⟩
    · rintro ⟨pre, hlen, _, hs, hn⟩
      have hpre : pre = [] := List.length_eq_zero.1 (Nat.le_zero.1 hlen)
      subst hpre
      exact ⟨hn, hs.symm⟩
  | succ e ih =>
    intro n s c2
    simp only [upTo, List.mem_cons, List.mem_flatMap]
    constructor
    · rintro (rfl | ⟨⟨n1, s1⟩, hm, hc⟩)
      · exact ⟨[], by simp, by simp, rfl, rfl⟩
      · rw [mem_step_cls] at hm
        rw [ih] at hc
        obtain ⟨x, hx, rfl, hn1⟩ := hm
        obtain ⟨pre, hlen, hall, hs1, hn2⟩ := hc
        simp only at hn1 hs1
        refine ⟨x :: pre, by simpa using hlen, ?_, by simp [hs1], by simp [hn2, hn1]; omega⟩
        intro y hy
        rcases List.mem_cons.1 hy with rfl | hy
        · exact hx
        · exact hall y hy
    · rintro ⟨pre, hlen, hall, hs, hn⟩
      cases pre with
      | nil =>
        left
        obtain ⟨n2, s2⟩ := c2
        simp only [List.nil_append, List.length_nil, Nat.add_zero] at hs hn
        rw [hs, hn]
      | cons x pre =>
        right
        refine ⟨(n + 1, pre ++ c2.2), ?_, ?_⟩
        · rw [mem_step_cls]
          exact ⟨x, hall x (List.mem_cons_self _ _), by simpa using hs, rfl⟩
        · rw [ih]
          refine ⟨pre, by simpa using hlen, fun y hy => hall y (List.mem_cons_of_mem _ hy),
            rfl, ?_⟩
          simp only [List.length_cons] at hn
          omega

theorem mem_iterate_cls (ranges : List (Char × Char)) (e : Nat) :
    ∀ (lo n : Nat) (s : List Char) (c2 : Cursor),
      c2 ∈ iterate (step (cls ranges)) lo e (n, s) ↔
        ∃ pre : List Char, lo ≤ pre.length ∧ pre.length ≤ lo + e ∧
          (∀ x ∈ pre, inClass ranges x = true) ∧ s = pre ++ c2.2 ∧ c2.1 = n + pre.length := by
  intro lo
  induction lo with
  | zero =>
    intro n s c2
    simp only [iterate, mem_upTo_cls, Nat.zero_le, true_and, Nat.zero_add]
  | succ lo ih =>
    intro n s c2
    simp only [iterate, List.mem_flatMap]
    constructor
    · rintro ⟨⟨n1, s1⟩, hm, hc⟩
      rw [mem_step_cls] at hm
      rw [ih] at hc
      obtain ⟨x, hx, rfl, hn1⟩ := hm
      obtain ⟨pre, hlo, hhi, hall, hs1, hn2⟩ := hc
      simp only at hn1 hs1
      refine ⟨x :: pre, by simpa using hlo, by simp; omega, ?_, by simp [hs1],
        by simp [hn2, hn1]; omega⟩
      intro y hy
      rcases List.mem_cons.1 hy with rfl | hy
      · exact hx
      · exact hall y hy
    · rintro ⟨pre, hlo, hhi, hall, hs, hn⟩
      cases pre with
      | nil => simp at hlo
      | cons x pre =>
        refine ⟨(n + 1, pre ++ c2.2), ?_, ?_⟩
        · rw [mem_step_cls]
          exact ⟨x, hall x (List.mem_cons_self _ _), by simpa using hs, rfl⟩
        · rw [ih]
          simp only [List.length_cons] at hlo hhi hn
          exact ⟨pre, by omega, by omega, fun y hy => hall y (List.mem_cons_of_mem _ hy),
            rfl, by omega⟩

theorem step_rep (r : Regexp) (lo : Nat) (hi : Option Nat) (c : Cursor) :
    step (rep r lo hi) c =
      iterate (step r) lo
        (match hi with
         | some h => h - lo
         | none => c.2.length) c := by
  cases hi <;> rfl

/-- A bounded repetition of a class consumes between `lo` and `hi` characters
of the class. -/
theorem mem_step_rep_cls_bounded (ranges : List (Char × Char)) (lo hi : Nat) (hle : lo ≤ hi)
    (n : Nat) (s : List Char) (c2 : Cursor) :
    c2 ∈ step (rep (cls ranges) lo (some hi)) (n, s) ↔
      ∃ pre : List Char, lo ≤ pre.length ∧ pre.length ≤ hi ∧
        (∀ x ∈ pre, inClass ranges x = true) ∧ s = pre ++ c2.2 ∧ c2.1 = n + pre.length := by
  rw [step_rep]
  simp only [mem_iterate_cls]
  have hsum : lo + (hi - lo) = hi := by omega
  rw [hsum]

/-- An unbounded repetition of a class consumes at least `lo` characters of
the class. -/
theorem mem_step_rep_cls_unbounded (ranges : List (Char × Char)) (lo : Nat)
    (n : Nat) (s : List Char) (c2 : Cursor) :
    c2 ∈ step (rep (cls ranges) lo none) (n, s) ↔
      ∃ pre : List Char, lo ≤ pre.length ∧
        (∀ x ∈ pre, inClass ranges x = true) ∧ s = pre ++ c2.2 ∧ c2.1 = n + pre.length := by
  rw [step_rep]
  simp only [mem_iterate_cls]
  constructor
  · rintro ⟨pre, hlo, _, hall, hs, hn⟩
    exact ⟨pre, hlo, hall, hs, hn⟩
  · rintro ⟨pre, hlo, hall, hs, hn⟩
    refine ⟨pre, hlo, ?_, hall, hs, hn⟩
    have hlen : s.length = pre.length + c2.2.length := by rw [hs, List.length_append]
    omega

/-- An optional expression matches nothing or once. -/
theorem mem_step_opt (r : Regexp) (c c2 : Cursor) :
    c2 ∈ step (rep r 0 (some 1)) c ↔ c2 = c ∨ c2 ∈ step r c := by
  rw [step_rep]
  simp only [iterate, upTo, Nat.sub_zero, List.mem_cons, List.mem_flatMap,
    List.not_mem_nil, or_false]
  constructor
  · rintro (h | ⟨m, hm, rfl⟩)
    · exact Or.inl h
    · exact Or.inr hm
  · rintro (h | h)
    · exact Or.inl h
    · exact Or.inr ⟨c2, h, rfl⟩

theorem searchFrom_succ_of_anchored (re : Regexp)
    (h : ∀ n s, matchAt re (n + 1, s) = false) :
    ∀ (s : List Char) (n : Nat), searchFrom re (n + 1) s = false := by
  intro s
  induction s with
  | nil => intro n; simp [searchFrom, h]
  | cons x xs ih => intro n; simp [searchFrom, h, ih]

/-- An expression that starts with `^` matches somewhere in a text exactly
when it matches at the start of the text. -/
theorem MatchString_beginText_cat (r : Regexp) (str : String) :
    MatchString (cat beginText r) str = true ↔ ∃ c2, c2 ∈ step r (0, str.data) := by
  have hanch : ∀ n s, matchAt (cat beginText r) (n + 1, s) = false := by
    intro n s
    simp [matchAt, step]
  have hsearch : searchFrom (cat beginText r) 0 str.data =
      matchAt (cat beginText r) (0, str.data) := by
    cases hs : str.data with
    | nil => simp [searchFrom]
    | cons x xs => simp [searchFrom, searchFrom_succ_of_anchored _ hanch]
  unfold MatchString
  rw [hsearch, matchAt_iff]
  constructor
  · rintro ⟨c2, hc2⟩
    rw [mem_step_cat] at hc2
    obtain ⟨m, hm, hc⟩ := hc2
    rw [mem_step_beginText] at hm
    rw [hm.2] at hc
    exact ⟨c2, hc⟩
  · rintro ⟨c2, hc2⟩
    refine ⟨c2, ?_⟩
    rw [mem_step_cat]
    exact ⟨(0, str.data), (mem_step_beginText _ _).2 ⟨rfl, rfl⟩, hc2⟩

end Regexp

namespace Regexp

/-- An expression between `^` and `$` matches a text exactly when it matches
the whole text. -/
theorem MatchString_whole (r : Regexp) (str : String) :
    MatchString (cat beginText (cat r endText)) str = true ↔
      ∃ n, (n, []) ∈ step r (0, str.data) := by
  rw [MatchString_beginText_cat]
  constructor
  · rintro ⟨c2, hc2⟩
    rw [mem_step_cat] at hc2
    obtain ⟨⟨n, s⟩, hm, hc⟩ := hc2
    rw [mem_step_endText] at hc
    simp only at hc
    rw [hc.1] at hm
    exact ⟨n, hm⟩
  · rintro ⟨n, hn⟩
    refine ⟨(n, []), ?_⟩
    rw [mem_step_cat]
    exact ⟨(n, []), hn, (mem_step_endText _ _).2 ⟨rfl, rfl⟩⟩

end Regexp

theorem inClass_digit (c : Char) : Regexp.inClass [('0', '9')] c = isDecimalDigit c := by
  simp [Regexp.inClass, isDecimalDigit]

theorem inClass_lower (c : Char) : Regexp.inClass [('a', 'z')] c = isLowerLetter c := by
  simp [Regexp.inClass, isLowerLetter]

/-- The strings `regexpPercent` matches: `100`, or one or two decimal
digits. -/
theorem regexpPercent_iff (v : String) :
    regexpPercent.MatchString v = true ↔
      v = "100" ∨
        (1 ≤ v.data.length ∧ v.data.length ≤ 2 ∧ ∀ c ∈ v.data, isDecimalDigit c = true) := by
  unfold regexpPercent
  simp only [Regexp.seq]
  rw [Regexp.MatchString_whole]
  simp only [Regexp.mem_step_group, Regexp.mem_step_alt, Regexp.lits, Regexp.mem_step_lits,
    digit, Regexp.mem_step_rep_cls_bounded _ 1 2 (by omega), inClass_digit,
    List.append_nil]
  constructor
  · rintro ⟨n, h | ⟨pre, hlo, hhi, hall, hs, _⟩⟩
    · exact Or.inl (String.ext h.1)
    · rw [hs]
      exact Or.inr ⟨hlo, hhi, hall⟩
  · rintro (h | ⟨hlo, hhi, hall⟩)
    · subst h
      exact ⟨3, Or.inl ⟨rfl, rfl⟩⟩
    · exact ⟨v.data.length, Or.inr ⟨v.data, hlo, hhi, hall, rfl, by simp⟩⟩

/-- The strings `regexpStatus` matches: the eight status codes. -/
theorem regexpStatus_iff (v : String) :
    regexpStatus.MatchString v = true ↔
      v ∈ ["200", "400", "403", "404", "500", "502", "503", "504"] := by
  unfold regexpStatus
  simp only [Regexp.seq, Regexp.alts]
  rw [Regexp.MatchString_whole]
  simp only [Regexp.mem_step_group, Regexp.mem_step_alt, Regexp.lits, Regexp.mem_step_lits,
    List.append_nil, List.mem_cons, List.mem_singleton, List.not_mem_nil, or_false]
  constructor
  · rintro ⟨n, h | h | h | h | h | h | h | h⟩
    · exact Or.inl (String.ext h.1)
    · exact Or.inr (Or.inl (String.ext h.1))
    · exact Or.inr (Or.inr (Or.inl (String.ext h.1)))
    · exact Or.inr (Or.inr (Or.inr (Or.inl (String.ext h.1))))
    · exact Or.inr (Or.inr (Or.inr (Or.inr (Or.inl (String.ext h.1)))))
    · exact Or.inr (Or.inr (Or.inr (Or.inr (Or.inr (Or.inl (String.ext h.1))))))
    · exact Or.inr (Or.inr (Or.inr (Or.inr (Or.inr (Or.inr (Or.inl (String.ext h.1)))))))
    · exact Or.inr (Or.inr (Or.inr (Or.inr (Or.inr (Or.inr (Or.inr (String.ext h.1)))))))
  · rintro (h | h | h | h | h | h | h | h) <;> subst h
    · exact ⟨3, Or.inl ⟨rfl, rfl⟩⟩
    · exact ⟨3, Or.inr (Or.inl ⟨rfl, rfl⟩)⟩
    · exact ⟨3, Or.inr (Or.inr (Or.inl ⟨rfl, rfl⟩))⟩
    · exact ⟨3, Or.inr (Or.inr (Or.inr (Or.inl ⟨rfl, rfl⟩)))⟩
    · exact ⟨3, Or.inr (Or.inr (Or.inr (Or.inr (Or.inl ⟨rfl, rfl⟩))))⟩
    · exact ⟨3, Or.inr (Or.inr (Or.inr (Or.inr (Or.inr (Or.inl ⟨rfl, rfl⟩)))))⟩
    · exact ⟨3, Or.inr (Or.inr (Or.inr (Or.inr (Or.inr (Or.inr (Or.inl ⟨rfl, rfl⟩))))))⟩
    · exact ⟨3, Or.inr (Or.inr (Or.inr (Or.inr (Or.inr (Or.inr (Or.inr ⟨rfl, rfl⟩))))))⟩

/-- The strings `regexpNumRange` matches: one or more decimal digits,
optionally followed by `-` and one or more decimal digits. -/
theorem regexpNumRange_iff (v : String) :
    regexpNumRange.MatchString v = true ↔
      ∃ lo : List Char, lo ≠ [] ∧ (∀ c ∈ lo, isDecimalDigit c = true) ∧
        (v.data = lo ∨
          ∃ hi : List Char, hi ≠ [] ∧ (∀ c ∈ hi, isDecimalDigit c = true) ∧
            v.data = lo ++ '-' :: hi) := by
  unfold regexpNumRange
  simp only [Regexp.seq]
  rw [Regexp.MatchString_beginText_cat]
  constructor
  · rintro ⟨c2, h⟩
    rw [Regexp.mem_step_cat] at h
    obtain ⟨⟨n1, s1⟩, h1, h⟩ := h
    rw [Regexp.mem_step_group, digit, Regexp.mem_step_rep_cls_unbounded] at h1
    obtain ⟨lo, hlo, hall, hs, _⟩ := h1
    simp only [inClass_digit] at hall hs
    rw [Regexp.mem_step_cat] at h
    obtain ⟨⟨n2, s2⟩, h2, h⟩ := h
    rw [Regexp.mem_step_endText] at h
    simp only at h
    obtain ⟨rfl, _⟩ := h
    rw [Regexp.mem_step_opt] at h2
    refine ⟨lo, List.length_pos.1 hlo, hall, ?_⟩
    rcases h2 with h2 | h2
    · simp only [Prod.mk.injEq] at h2
      left
      rw [hs, ← h2.2, List.append_nil]
    · rw [Regexp.mem_step_group, Regexp.mem_step_cat] at h2
      obtain ⟨⟨n3, s3⟩, h3, h4⟩ := h2
      rw [Regexp.mem_step_lit] at h3
      rw [Regexp.mem_step_group, digit, Regexp.mem_step_rep_cls_unbounded] at h4
      obtain ⟨hi, hhi, hallhi, hs3, _⟩ := h4
      simp only [inClass_digit, List.append_nil] at hallhi hs3 h3
      right
      refine ⟨hi, List.length_pos.1 hhi, hallhi, ?_⟩
      rw [hs, h3.1, hs3]
  · rintro ⟨lo, hlo, hall, h | ⟨hi, hhi, hallhi, h⟩⟩
    · refine ⟨(lo.length, []), ?_⟩
      rw [Regexp.mem_step_cat]
      refine ⟨(lo.length, []), ?_, ?_⟩
      · rw [Regexp.mem_step_group, digit, Regexp.mem_step_rep_cls_unbounded]
        exact ⟨lo, List.length_pos.2 hlo, by simpa [inClass_digit] using hall,
          by simp [h], by simp⟩
      · rw [Regexp.mem_step_cat]
        exact ⟨(lo.length, []), (Regexp.mem_step_opt _ _ _).2 (Or.inl rfl),
          (Regexp.mem_step_endText _ _).2 ⟨rfl, rfl⟩⟩
    · refine ⟨(lo.length + 1 + hi.length, []), ?_⟩
      rw [Regexp.mem_step_cat]
      refine ⟨(lo.length, '-' :: hi), ?_, ?_⟩
      · rw [Regexp.mem_step_group, digit, Regexp.mem_step_rep_cls_unbounded]
        exact ⟨lo, List.length_pos.2 hlo, by simpa [inClass_digit] using hall,
          by simp [h], by simp⟩
      · rw [Regexp.mem_step_cat]
        refine ⟨(lo.length + 1 + hi.length, []), ?_, (Regexp.mem_step_endText _ _).2 ⟨rfl, rfl⟩⟩
        rw [Regexp.mem_step_opt]
        right
        rw [Regexp.mem_step_group, Regexp.mem_step_cat]
        refine ⟨(lo.length + 1, hi), (Regexp.mem_step_lit _ _ _ _).2 ⟨rfl, rfl⟩, ?_⟩
        rw [Regexp.mem_step_group, digit, Regexp.mem_step_rep_cls_unbounded]
        exact ⟨hi, List.length_pos.2 hhi, by simpa [inClass_digit] using hallhi,
          by simp, by simp⟩

/-- The strings `regexpAZone` matches: two lowercase letters, `-`, one or more
lowercase letters, `-`, one digit from `1` to `9`, one letter from `a` to
`d`. -/
theorem regexpAZone_iff (v : String) :
    regexpAZone.MatchString v = true ↔
      ∃ (r w : List Char) (d l : Char),
        r.length = 2 ∧ (∀ c ∈ r, isLowerLetter c = true) ∧
        w ≠ [] ∧ (∀ c ∈ w, isLowerLetter c = true) ∧
        Regexp.inClass [('1', '9')] d = true ∧ Regexp.inClass [('a', 'd')] l = true ∧
        v.data = r ++ '-' :: (w ++ ['-', d, l]) := by
  unfold regexpAZone
  simp only [Regexp.seq]
  rw [Regexp.MatchString_whole]
  constructor
  · rintro ⟨n, h⟩
    rw [Regexp.mem_step_group, Regexp.mem_step_cat] at h
    obtain ⟨⟨n1, s1⟩, h1, h⟩ := h
    rw [Regexp.mem_step_rep_cls_bounded _ 2 2 (Nat.le_refl 2)] at h1
    obtain ⟨r, hlo, hhi, hallr, hs, _⟩ := h1
    rw [Regexp.mem_step_cat] at h
    obtain ⟨⟨n2, s2⟩, h2, h⟩ := h
    rw [Regexp.mem_step_lit] at h2
    rw [Regexp.mem_step_cat] at h
    obtain ⟨⟨n3, s3⟩, h3, h⟩ := h
    rw [Regexp.mem_step_rep_cls_unbounded] at h3
    obtain ⟨w, hw, hallw, hs2, _⟩ := h3
    rw [Regexp.mem_step_cat] at h
    obtain ⟨⟨n4, s4⟩, h4, h⟩ := h
    rw [Regexp.mem_step_lit] at h4
    rw [Regexp.mem_step_cat] at h
    obtain ⟨⟨n5, s5⟩, h5, h⟩ := h
    rw [Regexp.mem_step_cls] at h5 h
    obtain ⟨d, hd, hs4, _⟩ := h5
    obtain ⟨l, hl, hs5, _⟩ := h
    simp only [inClass_lower] at hallr hallw hs hs2 h2 h4 hs4 hs5
    refine ⟨r, w, d, l, by omega, hallr, List.length_pos.1 hw, hallw, hd, hl, ?_⟩
    rw [hs, h2.1, hs2, h4.1, hs4, hs5]
  · rintro ⟨r, w, d, l, hr, hallr, hw, hallw, hd, hl, h⟩
    refine ⟨r.length + 1 + w.length + 1 + 1 + 1, ?_⟩
    rw [Regexp.mem_step_group, Regexp.mem_step_cat]
    refine ⟨(r.length, '-' :: (w ++ ['-', d, l])), ?_, ?_⟩
    · rw [Regexp.mem_step_rep_cls_bounded _ 2 2 (Nat.le_refl 2)]
      exact ⟨r, by omega, by omega, by simpa [inClass_lower] using hallr, by simp [h],
        by simp⟩
    rw [Regexp.mem_step_cat]
    refine ⟨(r.length + 1, w ++ ['-', d, l]), (Regexp.mem_step_lit _ _ _ _).2 ⟨rfl, rfl⟩, ?_⟩
    rw [Regexp.mem_step_cat]
    refine ⟨(r.length + 1 + w.length, ['-', d, l]), ?_, ?_⟩
    · rw [Regexp.mem_step_rep_cls_unbounded]
      exact ⟨w, List.length_pos.2 hw, by simpa [inClass_lower] using hallw, rfl, rfl⟩
    rw [Regexp.mem_step_cat]
    refine ⟨(r.length + 1 + w.length + 1, [d, l]),
      (Regexp.mem_step_lit _ _ _ _).2 ⟨rfl, rfl⟩, ?_⟩
    rw [Regexp.mem_step_cat]
    refine ⟨(r.length + 1 + w.length + 1 + 1, [l]), ?_, ?_⟩
    · rw [Regexp.mem_step_cls]
      exact ⟨d, hd, rfl, rfl⟩
    · rw [Regexp.mem_step_cls]
      exact ⟨l, hl, rfl, rfl⟩

/-! ## What the validator stores for one value -/

theorem validateQueryString_single (key v : String) :
    validateQueryString [(key, [v])] = validateEntry {} (key, v) := rfl

theorem stored_iff_accepts (key v : String) (field : QueryString → String)
    (hfield : field (validateEntry {} (key, v)) = if accepts (key, v) = true then v else "")
    (hempty : accepts (key, "") = false) :
    stored key v field ↔ accepts (key, v) = true := by
  unfold stored
  rw [validateQueryString_single, hfield]
  by_cases hacc : accepts (key, v) = true
  · have hv : v ≠ "" := by
      intro hv
      rw [hv, hempty] at hacc
      exact Bool.false_ne_true hacc
    simp [hacc, hv]
  · have hacc2 : accepts (key, v) = false := by simpa using hacc
    rw [hacc2]
    constructor
    · rintro ⟨h1, h2⟩
      simp only [Bool.false_eq_true, if_false] at h1
      exact absurd h1.symm h2
    · intro h
      exact absurd h Bool.false_ne_true

theorem stored_cpu_iff (v : String) :
    stored "cpu" v QueryString.CPU ↔ regexpPercent.MatchString v = true :=
  stored_iff_accepts "cpu" v _ (by rw [validateEntry_CPU]; simp) (by decide)

theorem stored_memory_iff (v : String) :
    stored "memory" v QueryString.Memory ↔ regexpPercent.MatchString v = true :=
  stored_iff_accepts "memory" v _ (by rw [validateEntry_Memory]; simp) (by decide)

theorem stored_sleep_iff (v : String) :
    stored "sleep" v QueryString.Sleep ↔ regexpNumRange.MatchString v = true :=
  stored_iff_accepts "sleep" v _ (by rw [validateEntry_Sleep]; simp) (by decide)

theorem stored_size_iff (v : String) :
    stored "size" v QueryString.Size ↔ regexpNumRange.MatchString v = true :=
  stored_iff_accepts "size" v _ (by rw [validateEntry_Size]; simp) (by decide)

theorem stored_status_iff (v : String) :
    stored "status" v QueryString.Status ↔ regexpStatus.MatchString v = true :=
  stored_iff_accepts "status" v _ (by rw [validateEntry_Status]; simp) (by decide)

theorem stored_ifaz_iff (v : String) :
    stored "ifaz" v QueryString.IfAZ ↔ regexpAZone.MatchString v = true :=
  stored_iff_accepts "ifaz" v _ (by rw [validateEntry_IfAZ]; simp) (by decide)

theorem isDecimalDigit_iff (c : Char) :
    isDecimalDigit c = true ↔ 48 ≤ c.toNat ∧ c.toNat ≤ 57 := by
  simp [isDecimalDigit]

theorem decimalValue_le_99 (cs : List Char) (hlen : cs.length ≤ 2)
    (hall : ∀ c ∈ cs, isDecimalDigit c = true) : decimalValue cs ≤ 99 := by
  match cs, hlen, hall with
  | [], _, _ => simp [decimalValue]
  | [a], _, hall =>
    have ha := (isDecimalDigit_iff a).1 (hall a (by simp))
    simp [decimalValue]
    omega
  | [a, b], _, hall =>
    have ha := (isDecimalDigit_iff a).1 (hall a (by simp))
    have hb := (isDecimalDigit_iff b).1 (hall b (by simp))
    simp [decimalValue]
    omega
  | _ :: _ :: _ :: _, hlen, _ => simp at hlen

/-- What `regexpPercent` accepts is a sequence of decimal digits that denotes a
number from 0 to 100, and it accepts the decimal numeral of each of them. -/
theorem regexpPercent_sound (v : String) (h : regexpPercent.MatchString v = true) :
    (∀ c ∈ v.data, isDecimalDigit c = true) ∧ decimalValue v.data ≤ 100 := by
  rcases (regexpPercent_iff v).1 h with rfl | ⟨_, hhi, hall⟩
  · decide
  · exact ⟨hall, Nat.le_trans (decimalValue_le_99 _ hhi hall) (by decide)⟩

theorem regexpPercent_complete :
    ∀ n, n ≤ 100 → regexpPercent.MatchString (toString n) = true := by
  decide

/-- C11: for a string `v` given as the single value of `cpu` or of `memory`: if
`v` is stored, it consists of decimal digits only and denotes a number from 0
to 100; and the decimal numeral, without leading zeros, of every number from 0
to 100 is stored. -/
theorem percent_validator (v : String) :
    (stored "cpu" v QueryString.CPU →
      (∀ c ∈ v.data, isDecimalDigit c = true) ∧ decimalValue v.data ≤ 100) ∧
    (stored "memory" v QueryString.Memory →
      (∀ c ∈ v.data, isDecimalDigit c = true) ∧ decimalValue v.data ≤ 100) ∧
    (∀ n, n ≤ 100 →
      stored "cpu" (toString n) QueryString.CPU ∧
      stored "memory" (toString n) QueryString.Memory) :=
  ⟨fun h => regexpPercent_sound v ((stored_cpu_iff v).1 h),
    fun h => regexpPercent_sound v ((stored_memory_iff v).1 h),
    fun n hn => ⟨(stored_cpu_iff _).2 (regexpPercent_complete n hn),
      (stored_memory_iff _).2 (regexpPercent_complete n hn)⟩⟩

/-- C11 at the values `42`, `100`, `007` and `101`. -/
theorem percent_validator_witness :
    stored "cpu" "42" QueryString.CPU ∧ decimalValue "42".data = 42 ∧
    stored "memory" "100" QueryString.Memory ∧
    ¬ stored "cpu" "007" QueryString.CPU ∧ ¬ stored "cpu" "101" QueryString.CPU :=
  ⟨((percent_validator "").2.2 42 (by decide)).1, by decide,
    ((percent_validator "").2.2 100 (by decide)).2, by decide, by decide⟩

/-- C12: a string `v` given as the single value of `sleep`, or of `size`, is
stored exactly when it is a non-empty sequence of decimal digits or two such
sequences joined by one `-`. -/
theorem numrange_validator (v : String) :
    (stored "sleep" v QueryString.Sleep ↔ isNumberOrRange v) ∧
    (stored "size" v QueryString.Size ↔ isNumberOrRange v) :=
  ⟨(stored_sleep_iff v).trans (regexpNumRange_iff v),
    (stored_size_iff v).trans (regexpNumRange_iff v)⟩

/-- C12 at the values `10-20`, `-5`, `10-`, `1 2` and the empty string. -/
theorem numrange_validator_witness :
    isNumberOrRange "10-20" ∧ stored "size" "7" QueryString.Size ∧
    ¬ isNumberOrRange "-5" ∧ ¬ isNumberOrRange "10-" ∧ ¬ isNumberOrRange "1 2" ∧
    ¬ isNumberOrRange "" :=
  ⟨(numrange_validator "10-20").1.1 (by decide),
    (numrange_validator "7").2.2 ⟨['7'], by decide, by decide, Or.inl rfl⟩,
    fun h => absurd ((numrange_validator "-5").1.2 h) (by decide),
    fun h => absurd ((numrange_validator "10-").1.2 h) (by decide),
    fun h => absurd ((numrange_validator "1 2").2.2 h) (by decide),
    fun h => absurd ((numrange_validator "").2.2 h) (by decide)⟩

/-- C13: a string `v` given as the single value of `status` is stored exactly
when it is one of 200, 400, 403, 404, 500, 502, 503, 504. -/
theorem status_validator (v : String) :
    stored "status" v QueryString.Status ↔
      v ∈ ["200", "400", "403", "404", "500", "502", "503", "504"] :=
  (stored_status_iff v).trans (regexpStatus_iff v)

/-- C13 at the values `404` and `201`. -/
theorem status_validator_witness :
    stored "status" "404" QueryString.Status ∧ ¬ stored "status" "201" QueryString.Status :=
  ⟨(status_validator "404").2 (by decide),
    fun h => absurd ((status_validator "201").1 h) (by decide)⟩

theorem inClass_digit1to9 (c : Char) : Regexp.inClass [('1', '9')] c = isDigit1to9 c := by
  simp [Regexp.inClass, isDigit1to9]

theorem inClass_letterAtoD (c : Char) : Regexp.inClass [('a', 'd')] c = isLetterAtoD c := by
  simp [Regexp.inClass, isLetterAtoD]

/-- C18 (the claim as written fails here): `ap-northeast-0a` has the form the
claim gives, with the decimal digit `0`, and is not stored. -/
theorem ifaz_digit_zero_not_stored :
    isAZoneForm isDecimalDigit "ap-northeast-0a" ∧
    ¬ stored "ifaz" "ap-northeast-0a" QueryString.IfAZ :=
  ⟨⟨['a', 'p'], "northeast".data, '0', 'a', by decide, by decide, by decide, by decide,
    by decide, by decide, by decide⟩, by decide⟩

/-- C18 (amended): a string `v` given as the single value of `ifaz` is stored
exactly when it has the form: two lowercase letters, `-`, a word of one or
more lowercase letters, `-`, one digit from `1` to `9`, one letter from `a` to
`d`. -/
theorem ifaz_validator (v : String) :
    stored "ifaz" v QueryString.IfAZ ↔ isAZoneForm isDigit1to9 v := by
  rw [stored_ifaz_iff, regexpAZone_iff]
  simp only [isAZoneForm, inClass_digit1to9, inClass_letterAtoD]

/-- The amended C18 at the values `ap-northeast-1a` and `ap-northeast-0a`. -/
theorem ifaz_validator_witness :
    isAZoneForm isDigit1to9 "ap-northeast-1a" ∧ ¬ isAZoneForm isDigit1to9 "ap-northeast-0a" :=
  ⟨(ifaz_validator "ap-northeast-1a").1 (by decide),
    fun h => absurd ((ifaz_validator "ap-northeast-0a").2 h) (by decide)⟩

/-! ## Repeated action parameters -/

theorem Join_two_has_comma :
    ∀ vs : List String, 2 ≤ vs.length → ',' ∈ (strings.Join vs ", ").data := by
  intro vs hvs
  match vs, hvs with
  | a :: b :: rest, _ =>
    simp only [strings.Join, String.data_append, List.mem_append]
    exact Or.inl (Or.inr (by decide))

/-- A value that the pattern of an action key matches has no comma. -/
theorem action_value_no_comma (k v : String) (hk : k ∈ actionKeys)
    (hacc : accepts (k, v) = true) : ',' ∉ v.data := by
  have hdigit : ∀ l : List Char, (∀ c ∈ l, isDecimalDigit c = true) → ',' ∉ l := by
    intro l hall hm
    exact absurd (hall ',' hm) (by decide)
  simp only [actionKeys, List.mem_cons, List.mem_singleton, List.not_mem_nil, or_false] at hk
  rcases hk with rfl | rfl | rfl | rfl | rfl
  · rcases (regexpPercent_iff v).1 hacc with rfl | ⟨_, _, hall⟩
    · decide
    · exact hdigit _ hall
  · rcases (regexpPercent_iff v).1 hacc with rfl | ⟨_, _, hall⟩
    · decide
    · exact hdigit _ hall
  · obtain ⟨lo, _, hall, h | ⟨hi, _, hallhi, h⟩⟩ := (regexpNumRange_iff v).1 hacc
    · rw [h]; exact hdigit _ hall
    · rw [h]
      intro hm
      rcases List.mem_append.1 hm with hm | hm
      · exact hdigit _ hall hm
      · rcases List.mem_cons.1 hm with hm | hm
        · exact absurd hm (by decide)
        · exact hdigit _ hallhi hm
  · obtain ⟨lo, _, hall, h | ⟨hi, _, hallhi, h⟩⟩ := (regexpNumRange_iff v).1 hacc
    · rw [h]; exact hdigit _ hall
    · rw [h]
      intro hm
      rcases List.mem_append.1 hm with hm | hm
      · exact hdigit _ hall hm
      · rcases List.mem_cons.1 hm with hm | hm
        · exact absurd hm (by decide)
        · exact hdigit _ hallhi hm
  · have hmem := (regexpStatus_iff v).1 hacc
    simp only [List.mem_cons, List.mem_singleton, List.not_mem_nil, or_false] at hmem
    rcases hmem with rfl | rfl | rfl | rfl | rfl | rfl | rfl | rfl <;> decide

/-- C20: for an action key `k` and a list `vs` of two or more values, the
pattern of `k` does not match the values joined with `, `; the map with the
one entry `k = vs` validates to the empty directive set, and in a map that
holds the entry validation gives the same as without the key `k`. -/
theorem repeated_action_rejected (k : String) (vs : List String)
    (hk : k ∈ actionKeys) (hvs : 2 ≤ vs.length) :
    (∃ re, store.validator k = some re ∧ re.MatchString (strings.Join vs ", ") = false) ∧
    validateQueryString [(k, vs)] = {} ∧
    ∀ m : Values, (m.map Prod.fst).Nodup → (k, vs) ∈ m →
      validateQueryString m = validateQueryString (m.filter (fun kv => kv.1 ≠ k)) := by
  have hacc : accepts (k, strings.Join vs ", ") = false := by
    cases h : accepts (k, strings.Join vs ", ") with
    | false => rfl
    | true => exact absurd (Join_two_has_comma vs hvs) (action_value_no_comma k _ hk h)
  refine ⟨?_, ?_, ?_⟩
  · rcases (accepts_eq_false_iff _).1 hacc with hnone | hsome
    · simp only [actionKeys, List.mem_cons, List.mem_singleton, List.not_mem_nil, or_false] at hk
      rcases hk with rfl | rfl | rfl | rfl | rfl <;> simp [store, newValidator] at hnone
    · exact hsome
  · exact validateEntry_of_not_accepts {} _ hacc
  · intro m hnodup hmem
    unfold validateQueryString
    apply foldl_validateEntry_filter
    intro kv hkv hkey
    have heq : kv = (k, vs) := List.inj_on_of_nodup_map hnodup hkv hmem hkey
    rw [heq]
    exact hacc

/-- C20 at the query `cpu=10&cpu=20`. -/
theorem repeated_action_rejected_witness :
    strings.Join ["10", "20"] ", " = "10, 20" ∧
    validateQueryString [("cpu", ["10", "20"])] = {} :=
  ⟨by decide, (repeated_action_rejected "cpu" ["10", "20"] (by decide) (by decide)).2.1⟩

/-! ## The empty query and the shape of the processed set -/

/-- C14: the empty query-parameter map validates to the empty directive set,
which evaluates to the empty directive set; so does every request whose query
is empty. -/
theorem empty_query_empty_sets (st : DataStore) (r : Request) (h : r.Query = []) :
    validateQueryString [] = {} ∧
    evaluateQueryString (validateQueryString []) = {} ∧
    (handler st r).Direction.Input = {} ∧
    (handler st r).Direction.Process = {} := by
  simp only [handler, h]
  exact ⟨rfl, rfl, rfl, rfl⟩

/-- C14 at the request `requestNotForwarded`, whose query is empty. -/
theorem empty_query_empty_sets_witness :
    requestNotForwarded.Query = [] ∧
    (handler store requestNotForwarded).Direction.Input = {} ∧
    (handler store requestNotForwarded).Direction.Process = {} :=
  ⟨rfl, (empty_query_empty_sets store requestNotForwarded rfl).2.2⟩

/-- C19: `evaluateQueryString q` is the empty directive set when
`q.existsAction` is false and `q` itself, condition fields and flag included,
when it is true; so evaluating twice is the same as evaluating once. -/
theorem evaluateQueryString_empty_or_same (q : QueryString) :
    (q.existsAction = false → evaluateQueryString q = {}) ∧
    (q.existsAction = true → evaluateQueryString q = q) ∧
    evaluateQueryString (evaluateQueryString q) = evaluateQueryString q := by
  refine ⟨evaluateQueryString_of_no_action q, evaluateQueryString_of_action q, ?_⟩
  cases h : q.existsAction
  · rw [evaluateQueryString_of_no_action q h]
    rfl
  · rw [evaluateQueryString_of_action q h, evaluateQueryString_of_action q h]

/-- C19 at a set with an action and a condition, and at one with a condition
only. -/
theorem evaluateQueryString_empty_or_same_witness :
    evaluateQueryString { CPU := "50", existsAction := true, IfHost := "web-1" } =
      { CPU := "50", existsAction := true, IfHost := "web-1" } ∧
    evaluateQueryString { IfHost := "web-1" } = {} :=
  ⟨(evaluateQueryString_empty_or_same _).2.1 rfl, (evaluateQueryString_empty_or_same _).1 rfl⟩

/-! ## The resource registry -/

/-- C15: in a sequential execution, for the CPU and the Memory usage alike,
`setTarget v` followed by `getTarget` returns `v` itself, whatever `v` is, and
`setCurrent v` followed by `getCurrent` returns `v`. -/
theorem set_then_get (res : ResourceInfo) (v : Float) :
    (res.CPU.setTarget v).getTarget = v ∧ (res.Memory.setTarget v).getTarget = v ∧
    (res.CPU.setCurrent v).getCurrent = v ∧ (res.Memory.setCurrent v).getCurrent = v :=
  ⟨rfl, rfl, rfl, rfl⟩

/-- C15 at the initial store and the value 150, which is no percentage: it is
stored and read back as it is. -/
theorem set_then_get_witness :
    (store.resource.CPU.setTarget 150).getTarget = 150 ∧
    (store.resource.Memory.setCurrent 150).getCurrent = 150 :=
  ⟨(set_then_get store.resource 150).1, (set_then_get store.resource 150).2.2.2⟩

/-! ## The host portion of an address -/

theorem splitChars_ne_nil (sep : Char) (cs : List Char) : strings.splitChars sep cs ≠ [] := by
  cases cs with
  | nil => simp [strings.splitChars]
  | cons c cs =>
    simp only [strings.splitChars]
    split_ifs
    · simp
    · split <;> simp

/-- Behind the last separator of a text there is one more piece. -/
theorem splitChars_append_last (sep : Char) (p : List Char) (hp : sep ∉ p) :
    ∀ x : List Char,
      strings.splitChars sep (x ++ sep :: p) = strings.splitChars sep x ++ [p] := by
  intro x
  induction x with
  | nil => simp [strings.splitChars, splitChars_of_not_mem sep p hp]
  | cons c cs ih =>
    simp only [List.cons_append, strings.splitChars, List.append_eq]
    split_ifs with hc
    · rw [ih]
      simp
    · cases hsplit : strings.splitChars sep cs with
      | nil => exact absurd hsplit (splitChars_ne_nil sep cs)
      | cons seg segs =>
        rw [ih, hsplit]
        simp

theorem Join_cons_char (c : Char) (seg : List Char) (rest : List String) (sepStr : String) :
    strings.Join (String.mk (c :: seg) :: rest) sepStr =
      String.mk [c] ++ strings.Join (String.mk seg :: rest) sepStr := by
  cases rest with
  | nil => simp only [strings.Join]; apply String.ext; simp
  | cons r rs => simp only [strings.Join]; apply String.ext; simp

/-- Joining the pieces of a text with the separator gives the text back. -/
theorem Join_splitChars (sep : Char) (sepStr : String) (hsep : sepStr.data = [sep]) :
    ∀ x : List Char,
      strings.Join ((strings.splitChars sep x).map String.mk) sepStr = String.mk x := by
  intro x
  induction x with
  | nil => simp [strings.splitChars, strings.Join]
  | cons c cs ih =>
    simp only [strings.splitChars]
    cases hsplit : strings.splitChars sep cs with
    | nil => exact absurd hsplit (splitChars_ne_nil sep cs)
    | cons seg segs =>
      rw [hsplit] at ih
      simp only [List.map_cons] at ih
      split_ifs with hc
      · subst hc
        simp only [List.map_cons, strings.Join, ih]
        apply String.ext
        simp [hsep]
      · simp only [List.map_cons, Join_cons_char, ih]
        apply String.ext
        simp

/-- Trimming brackets off a bracketed text that itself neither starts nor ends
with a bracket gives the text. -/
theorem trimChars_bracketed (p : Char → Bool) (o c : Char) (l : List Char)
    (ho : p o = true) (hc : p c = true)
    (hfirst : ∀ x, l.head? = some x → p x = false)
    (hlast : ∀ x, l.getLast? = some x → p x = false) :
    strings.trimChars p (o :: (l ++ [c])) = l := by
  unfold strings.trimChars
  cases l with
  | nil => simp [List.dropWhile, ho, hc]
  | cons x xs =>
    have hx : p x = false := hfirst x rfl
    have h1 : List.dropWhile p (o :: (x :: xs ++ [c])) = x :: xs ++ [c] := by
      simp [List.dropWhile, ho, hx]
    rw [h1]
    have h2 : (x :: xs ++ [c]).reverse = c :: (x :: xs).reverse := by simp
    rw [h2]
    cases hrev : (x :: xs).reverse with
    | nil => simp at hrev
    | cons y ys =>
      have hy : p y = false := by
        apply hlast y
        rw [List.getLast?_eq_head?_reverse, hrev]
        rfl
      have h3 : List.dropWhile p (c :: y :: ys) = y :: ys := by
        simp [List.dropWhile, hc, hy]
      rw [h3, ← hrev, List.reverse_reverse]

theorem Split_data (s : String) (sep : Char) :
    strings.Split s sep = (strings.splitChars sep s.data).map String.mk := rfl

/-- C16: `extractIPAddress` strips the trailing port and the IPv6 brackets:
for a host `h` without `:`, `[` and `]` and a port `p` without `:` it maps
`h:p` to `h`; for an address `a` that neither starts nor ends with a bracket it
maps `[a]:p` to `a`. -/
theorem extractIPAddress_strips_port (h a p : String)
    (hh : ∀ c ∈ h.data, c ≠ ':' ∧ c ≠ '[' ∧ c ≠ ']')
    (hp : ':' ∉ p.data)
    (hfirst : ∀ c, a.data.head? = some c → c ≠ '[' ∧ c ≠ ']')
    (hlast : ∀ c, a.data.getLast? = some c → c ≠ '[' ∧ c ≠ ']') :
    extractIPAddress (h ++ ":" ++ p) = h ∧
    extractIPAddress ("[" ++ a ++ "]:" ++ p) = a := by
  constructor
  · have hdata : (h ++ ":" ++ p).data = h.data ++ ':' :: p.data := by
      simp [String.data_append]
    have hcolon : ':' ∉ h.data := fun hm => (hh ':' hm).1 rfl
    have hpre : strings.HasPrefix (h ++ ":" ++ p) "[" = false := by
      unfold strings.HasPrefix
      rw [hdata, show "[".data = ['['] from rfl]
      cases hd : h.data with
      | nil => simp [List.isPrefixOf]
      | cons c t =>
        have hc : c ≠ '[' := (hh c (by rw [hd]; exact List.mem_cons_self _ _)).2.1
        simp [List.isPrefixOf, Ne.symm hc]
    unfold extractIPAddress
    rw [hpre, Split_data, hdata, splitChars_append_sep ':' p.data h.data hcolon]
    rfl
  · have hdata : ("[" ++ a ++ "]:" ++ p).data = ('[' :: (a.data ++ [']'])) ++ ':' :: p.data := by
      simp [String.data_append]
    have hpre : strings.HasPrefix ("[" ++ a ++ "]:" ++ p) "[" = true := by
      unfold strings.HasPrefix
      rw [hdata, show "[".data = ['['] from rfl]
      simp [List.isPrefixOf]
    have hparts : strings.Split ("[" ++ a ++ "]:" ++ p) ':' =
        (strings.splitChars ':' ('[' :: (a.data ++ [']']))).map String.mk ++ [p] := by
      rw [Split_data, hdata, splitChars_append_last ':' p.data hp]
      simp
    unfold extractIPAddress
    rw [hpre]
    simp only [if_true, hparts, List.length_append, List.length_map, List.length_singleton,
      Nat.add_sub_cancel]
    have htake : ∀ (l1 l2 : List String), (l1 ++ l2).take l1.length = l1 := by
      intro l1 l2
      simp
    have hlen : (strings.splitChars ':' ('[' :: (a.data ++ [']']))).length =
        ((strings.splitChars ':' ('[' :: (a.data ++ [']']))).map String.mk).length := by
      simp
    rw [hlen, htake, Join_splitChars ':' ":" rfl]
    unfold strings.Trim
    have htrim : strings.trimChars (fun c => "[]".data.contains c) ('[' :: (a.data ++ [']'])) =
        a.data := by
      apply trimChars_bracketed
      · decide
      · decide
      · intro x hx
        have := hfirst x hx
        simp [this.1, this.2]
      · intro x hx
        have := hlast x hx
        simp [this.1, this.2]
    simp only [htrim]

/-- C16 at the examples `192.168.1.1:54321` and `[2001:db8::1]:443`. -/
theorem extractIPAddress_strips_port_witness :
    extractIPAddress "192.168.1.1:54321" = "192.168.1.1" ∧
    extractIPAddress "[2001:db8::1]:443" = "2001:db8::1" :=
  have h1 := extractIPAddress_strips_port "192.168.1.1" "2001:db8::1" "54321"
    (by decide) (by decide) (by decide) (by decide)
  have h2 := extractIPAddress_strips_port "192.168.1.1" "2001:db8::1" "443"
    (by decide) (by decide) (by decide) (by decide)
  ⟨h1.1, h2.2⟩

/-- C17 (the code departs from the claim): a bracketed IPv6 literal without
port loses its last group, since the branch for bracketed hosts always cuts off
what follows the last colon: `[::1]` gives `:` and `[2001:db8::1]` gives
`2001:db8:`.  A host without colon and brackets is returned as it is. -/
theorem bracketed_host_without_port_truncated :
    extractIPAddress "[::1]" = ":" ∧
    extractIPAddress "[2001:db8::1]" = "2001:db8:" ∧
    extractIPAddress "localhost" = "localhost" := by
  decide

end ReqHandle
